import Mathlib

/-!
Verification development for netcmp (netcmp.c): a tool that compares TCP
connection snapshots (netstat output) from several hosts to find connections
abandoned by one side.

The C source is shallowly embedded below.  C strings are modelled as
`List Char` (NUL-free; UTF-8 byte order coincides with codepoint order, so
`strcmp` is codepoint-lexicographic comparison).  Machine integers are
modelled as `Nat`/`Int`; the only wrap/saturation point in the program, the
`uint8_t ncc_nsources` counter, is saturated explicitly exactly as the C does
(lines 595-599 of netcmp.c).  Fallible parsing returns `Option`.  The AVL
trees (`nc_conns`, `nc_sources`) are modelled as lists with find/insert by
key: the comparators `nc_conn_compare`/`nc_source_compare` return 0 exactly
when all key components are equal, so AVL membership agrees with key
equality; iteration order only permutes the report, and every statement
proved below (counts, memberships) is order-independent.
-/

/-- C `isspace` in the C locale: space, \t, \n, vertical tab, form feed, \r. -/
def isSpaceC (c : Char) : Bool :=
  c.toNat = 32 || c.toNat = 9 || c.toNat = 10 || c.toNat = 11 || c.toNat = 12 || c.toNat = 13

/-- C `isdigit`: '0' through '9'. -/
def isDigitC (c : Char) : Bool :=
  48 ≤ c.toNat && c.toNat ≤ 57

/-- C `strcmp` on NUL-free strings, as a three-way comparison of byte
(= codepoint) sequences. -/
def strcmpO : List Char → List Char → Ordering
  | [], [] => .eq
  | [], _ :: _ => .lt
  | _ :: _, [] => .gt
  | a :: as, b :: bs =>
    if a.toNat < b.toNat then .lt
    else if b.toNat < a.toNat then .gt
    else strcmpO as bs

/-- Splitting a C string at single-character separators, keeping empty chunks
(the raw output of repeatedly scanning for `sep`). -/
def splitOnChar (sep : Char) : List Char → List (List Char)
  | [] => [[]]
  | c :: cs =>
    let r := splitOnChar sep cs
    if c = sep then [] :: r
    else
      match r with
      | t :: ts => (c :: t) :: ts
      | [] => [[c]]

/-- The token sequence produced by repeated `strtok_r(.., " ", ..)`: the
nonempty chunks between spaces. -/
def strtokAll (line : List Char) : List (List Char) :=
  (splitOnChar ' ' line).filter (fun t => t ≠ [])

/-- C `strrchr(str, '.')` followed by splitting there: returns the part
before the LAST dot and the part after it, or `none` if there is no dot. -/
def lastDotSplit : List Char → Option (List Char × List Char)
  | [] => none
  | c :: rest =>
    match lastDotSplit rest with
    | some (a, p) => some (c :: a, p)
    | none => if c = '.' then some ([], rest) else none

/-- The digit-consuming loop of `strtol` base 10: consumes the maximal digit
prefix, accumulating the value; returns the value and the unconsumed rest. -/
def strtolLoop : Int → List Char → Int × List Char
  | acc, [] => (acc, [])
  | acc, c :: cs =>
    if isDigitC c then strtolLoop (10 * acc + ((c.toNat : Int) - 48)) cs
    else (acc, c :: cs)

/-- C `strtol(s, &endp, 10)`: skip `isspace` characters, then an optional
sign, then a maximal run of digits.  If no digit is consumed, the result is 0
and `endp` is reset to the original string.  The value is modelled as an
unbounded `Int`; the caller (`nc_parse_ipport`) rejects every value outside
[0, 65535], and `long` overflow (`errno == ERANGE`, value clamped to
LONG_MIN/LONG_MAX) is rejected by the same test, so the accepted inputs and
outputs agree exactly with the C code. -/
def strtol10 (s : List Char) : Int × List Char :=
  match s.dropWhile isSpaceC with
  | [] => (0, s)
  | c :: r =>
    if c = '-' then
      match r with
      | [] => (0, s)
      | d :: _ =>
        if isDigitC d then
          let vr := strtolLoop 0 r
          (-vr.1, vr.2)
        else (0, s)
    else if c = '+' then
      match r with
      | [] => (0, s)
      | d :: _ =>
        if isDigitC d then strtolLoop 0 r
        else (0, s)
    else if isDigitC c then strtolLoop 0 (c :: r)
    else (0, s)

/-- netcmp.c lines 609-635, `nc_parse_ipport`: split the token at the last
dot, copy the address part into a buffer of `outbufsz` bytes with `strlcpy`
(which truncates to `outbufsz - 1` characters), parse the port with `strtol`,
and fail when the value is negative, exceeds 65535 (`UINT16_MAX`), or is
followed by unconsumed characters. -/
def nc_parse_ipport (outbufsz : Nat) (str : List Char) : Option (List Char × Nat) :=
  match lastDotSplit str with
  | none => none
  | some (addr, portstr) =>
    let out := addr.take (outbufsz - 1)
    let ve := strtol10 portstr
    if ve.1 < 0 ∨ 65535 < ve.1 ∨ ve.2 ≠ [] then none
    else some (out, ve.1.toNat)

/-- Decimal digit characters for printf rendering. -/
def decChar (d : Nat) : Char :=
  ['0', '1', '2', '3', '4', '5', '6', '7', '8', '9'].getD d '0'

/-- Digits of `n` in base 10, most significant first; `fuel` bounds the
recursion depth and any `fuel ≥` the digit count of `n` gives the full
rendering. -/
def natDecAux : Nat → Nat → List Char
  | 0, _ => []
  | _ + 1, 0 => []
  | fuel + 1, n + 1 => natDecAux fuel ((n + 1) / 10) ++ [decChar ((n + 1) % 10)]

/-- The rendering of `n` by printf `%d` (for the nonnegative values used
here): decimal digits, with "0" for zero.  `fuel = n + 1` always exceeds the
digit count of `n`, so the rendering is complete. -/
def natDec (n : Nat) : List Char :=
  if n = 0 then ['0'] else natDecAux (n + 1) n

/-- netcmp.c lines 444-448, `nc_ipport_tostr`: `snprintf(buf, bufsz, "%s:%d",
ip, port)`, which truncates the result to `bufsz - 1` characters. -/
def nc_ipport_tostr (bufsz : Nat) (ip : List Char) (port : Nat) : List Char :=
  (ip ++ ':' :: natDec port).take (bufsz - 1)

/-- The thirteen TCP state tokens accepted by nc_parse_row (lines 502-517). -/
def tcpStates : List (List Char) :=
  ["CLOSED", "IDLE", "BOUND", "LISTEN", "SYN_SENT", "SYN_RCVD", "ESTABLISHED",
   "CLOSE_WAIT", "FIN_WAIT_1", "CLOSING", "LAST_ACK", "FIN_WAIT_2",
   "TIME_WAIT"].map String.toList

/-- A source record (`ncsource_t`): one local IP address together with the
label (base name of the input file) under which it was first seen.  The
`strlcpy` calls that fill it truncate `ncs_ip` to 15 and `ncs_label` to 127
characters. -/
structure Source where
  ip : List Char
  label : List Char
deriving DecidableEq

/-- A connection record (`ncconn_t`): the canonically ordered endpoint pair,
the TCP state recorded at creation, the saturating observation counter
`ncc_nsources` (a `uint8_t`), and the at most two retained source
references. -/
structure Conn where
  ip1 : List Char
  port1 : Nat
  ip2 : List Char
  port2 : Nat
  state : List Char
  nsources : Nat
  sources : List Source
deriving DecidableEq

/-- The accumulated state of a run (`netcmp_t`): the localhost-skip counter
and the two registries. -/
structure Netcmp where
  nlocalhost : Nat
  conns : List Conn
  sources : List Source
deriving DecidableEq

/-- nc_init: empty registries, zero counters. -/
def nc_init : Netcmp := ⟨0, [], []⟩

/-- The key by which `nc_conn_compare` distinguishes connections: the
comparator returns 0 exactly when all four components are equal. -/
def connKey (c : Conn) : List Char × Nat × List Char × Nat :=
  (c.ip1, c.port1, c.ip2, c.port2)

/-- AVL lookup in the connection tree, by key equality. -/
def findConn (conns : List Conn) (k : List Char × Nat × List Char × Nat) : Option Conn :=
  conns.find? (fun c => connKey c == k)

/-- AVL lookup in the source tree (`nc_source_compare` compares `ncs_ip`). -/
def findSource (srcs : List Source) (ip : List Char) : Option Source :=
  srcs.find? (fun s => s.ip == ip)

/-- netcmp.c lines 549-561: ensure a source record keyed by the local IP
exists; an existing record is reused unchanged (its label is never
overwritten), otherwise a new record with the given label (truncated to the
127-character `ncs_label` buffer) is inserted.  Returns the record to
reference and the updated registry. -/
def registerSource (srcs : List Source) (ip lbl : List Char) : Source × List Source :=
  match findSource srcs ip with
  | some s => (s, srcs)
  | none =>
    let s : Source := ⟨ip, lbl.take 127⟩
    (s, srcs ++ [s])

/-- netcmp.c lines 563-577: sort the two (IP, port) tuples to normalize the
connection identifier.  Swap exactly when `strcmp(ip1, ip2) > 0`, or the IPs
are equal and `port1 > port2`. -/
def canonPair (e1 e2 : List Char × Nat) : (List Char × Nat) × (List Char × Nat) :=
  match strcmpO e1.1 e2.1 with
  | .gt => (e2, e1)
  | .eq => if e2.2 < e1.2 then (e2, e1) else (e1, e2)
  | .lt => (e1, e2)

/-- The canonical connection key produced from one observation's local and
remote endpoints. -/
def canonKeyOf (ip1 : List Char) (p1 : Nat) (ip2 : List Char) (p2 : Nat) :
    List Char × Nat × List Char × Nat :=
  let ab := canonPair (ip1, p1) (ip2, p2)
  (ab.1.1, ab.1.2, ab.2.1, ab.2.2)

/-- netcmp.c lines 591-599: record one more contributing source.  Below two
retained references the reference is appended and the counter incremented;
from two up to `UINT8_MAX - 1` only the counter is incremented; at
`UINT8_MAX` (255) the counter saturates. -/
def updSources (c : Conn) (s : Source) : Conn :=
  if c.nsources < 2 then
    { c with nsources := c.nsources + 1, sources := c.sources ++ [s] }
  else if c.nsources < 255 then
    { c with nsources := c.nsources + 1 }
  else c

/-- The loopback address test of netcmp.c lines 541-542. -/
def loopbackIp : List Char := "127.0.0.1".toList

/-- The core of nc_parse_row after both endpoints have been parsed
(netcmp.c lines 535-601): skip loopback observations (counting them),
otherwise register the local IP as a source, canonicalize the endpoint pair,
and create or update the connection record.  A new record stores the state
(truncated to the 15-character `ncc_state` buffer) and is then updated like
a found one, ending with count 1 and one retained source. -/
def nc_observe (st : Netcmp) (src ip1 : List Char) (p1 : Nat) (ip2 : List Char)
    (p2 : Nat) (stt : List Char) : Netcmp :=
  if ip1 = loopbackIp ∨ ip2 = loopbackIp then
    { st with nlocalhost := st.nlocalhost + 1 }
  else
    let rs := registerSource st.sources ip1 src
    let k := canonKeyOf ip1 p1 ip2 p2
    let conns' :=
      match findConn st.conns k with
      | none =>
        st.conns ++ [updSources
          { ip1 := k.1, port1 := k.2.1, ip2 := k.2.2.1, port2 := k.2.2.2,
            state := stt.take 15, nsources := 0, sources := [] } rs.1]
      | some _ =>
        st.conns.map (fun c => if connKey c == k then updSources c rs.1 else c)
    { nlocalhost := st.nlocalhost, conns := conns', sources := rs.2 }

/-- Result of scanning one data line: skipped blank line, fatal parse
error (including the `assert(nl != NULL)` abort), or a parsed record. -/
inductive RowResult where
  | blank : RowResult
  | perr : RowResult
  | row (ip1 : List Char) (p1 : Nat) (ip2 : List Char) (p2 : Nat)
      (state : List Char) : RowResult
deriving DecidableEq

/-- The pure parsing part of one iteration of the data-line loop
(netcmp.c lines 304-319 and 460-533): a lone newline is skipped; a line
without a newline is fatal ("line too long"); otherwise the line is split at
spaces, the 1st, 2nd and 7th tokens are taken as local endpoint, remote
endpoint and state (missing tokens are fatal), the state token is cut at its
newline (whose absence would trip the C assert) and checked against the
fixed state list, and both endpoint tokens are parsed with `nc_parse_ipport`
into the 16-byte `ncc_ip` buffers. -/
def parseRowData (line : List Char) : RowResult :=
  if line = ['\n'] then .blank
  else if ¬ line.contains '\n' then .perr
  else
    let toks := strtokAll line
    match toks[0]?, toks[1]?, toks[6]? with
    | some ipport1, some ipport2, some st0 =>
      if ¬ st0.contains '\n' then .perr
      else
        let state := st0.takeWhile (fun c => c ≠ '\n')
        if state ∉ tcpStates then .perr
        else
          match nc_parse_ipport 16 ipport1, nc_parse_ipport 16 ipport2 with
          | some ipp1, some ipp2 => .row ipp1.1 ipp1.2 ipp2.1 ipp2.2 state
          | _, _ => .perr
    | _, _, _ => .perr

/-- One iteration of the data-line loop of nc_read_file for a line of the
file labelled `src`: `none` is the fatal-error outcome. -/
def stepLine (st : Netcmp) (src line : List Char) : Option Netcmp :=
  match parseRowData line with
  | .blank => some st
  | .perr => none
  | .row ip1 p1 ip2 p2 stt => some (nc_observe st src ip1 p1 ip2 p2 stt)

/-- Processing a whole run's data lines, each paired with the label of the
file it came from (files are read sequentially, so any run is such a list). -/
def runLines : Netcmp → List (List Char × List Char) → Option Netcmp
  | st, [] => some st
  | st, (src, line) :: rest =>
    match stepLine st src line with
    | none => none
    | some st' => runLines st' rest

/-- The five mutually exclusive classification outcomes of nc_report. -/
inductive Outcome where
  | pruned : Outcome
  | overflow : Outcome
  | symmetric : Outcome
  | external : Outcome
  | asymmetric : Outcome
deriving DecidableEq

/-- The classification of one connection by nc_report (lines 343-398), in
the code's priority order: TIME_WAIT is pruned; more than two sources is the
overflow/error case; exactly two is symmetric; otherwise (the code asserts
`ncc_nsources == 1` here) the connection is external when at least one of
the two endpoint IPs is absent from the source registry — the code sets
`external` from the first lookup and only consults the second lookup when
the first succeeded — and asymmetric when both lookups succeed. -/
def classify (srcs : List Source) (c : Conn) : Outcome :=
  if c.state = "TIME_WAIT".toList then .pruned
  else if 2 < c.nsources then .overflow
  else if c.nsources = 2 then .symmetric
  else if (findSource srcs c.ip1).isNone ∨ (findSource srcs c.ip2).isNone then .external
  else .asymmetric

/-- How often nc_report assigns a given outcome over the final registry. -/
def countOutcome (st : Netcmp) (o : Outcome) : Nat :=
  (st.conns.map (classify st.sources)).count o

/-- Right-justified printf field of width `n` (`%21s`). -/
def padTo (n : Nat) (s : List Char) : List Char :=
  List.replicate (n - s.length) ' ' ++ s

/-- Fallback for reading `ncc_sources[0]`; never reached on registry
connections, whose retained-source list is nonempty. -/
def noSource : Source := ⟨[], []⟩

/-- The detail line printed for an asymmetric connection (netcmp.c lines
392-397): `"%21s <-> %21s only in %s\n"` with the two endpoint strings and
the label of the sole retained source. -/
def detailFor (c : Conn) : List Char :=
  padTo 21 (nc_ipport_tostr 22 c.ip1 c.port1) ++ " <-> ".toList ++
  padTo 21 (nc_ipport_tostr 22 c.ip2 c.port2) ++ " only in ".toList ++
  (c.sources.headD noSource).label ++ ['\n']

/-- The detail lines emitted by nc_report: one per connection classified
asymmetric, in iteration order. -/
def reportDetails (st : Netcmp) : List (List Char) :=
  st.conns.filterMap (fun c =>
    if classify st.sources c = Outcome.asymmetric then some (detailFor c) else none)

/-- The canonical key contributed by a data line, when it contributes one:
`none` for blank lines, unparseable lines and loopback observations. -/
def lineKey (line : List Char) : Option (List Char × Nat × List Char × Nat) :=
  match parseRowData line with
  | .row ip1 p1 ip2 p2 _ =>
    if ip1 = loopbackIp ∨ ip2 = loopbackIp then none
    else some (canonKeyOf ip1 p1 ip2 p2)
  | _ => none

/-- Number of observations of canonical tuple `k` in a run (non-loopback
data lines whose canonical key is `k`). -/
def obsCount (ls : List (List Char × List Char)) (k : List Char × Nat × List Char × Nat) : Nat :=
  ls.countP (fun pr => lineKey pr.2 == some k)

/-- Number of non-blank data lines in a run. -/
def nonBlankCount (ls : List (List Char × List Char)) : Nat :=
  ls.countP (fun pr => !(pr.2 == ['\n']))

/-- Total of the observation counters over the connection registry. -/
def sumNs (conns : List Conn) : Nat :=
  (conns.map (fun c => c.nsources)).sum

/-- The accumulation performed by the strtol digit loop, over `Nat`. -/
def natValAcc (acc : Nat) (ds : List Char) : Nat :=
  ds.foldl (fun a c => 10 * a + (c.toNat - 48)) acc

/-- Numeric value of a decimal digit string. -/
def natValD (ds : List Char) : Nat := natValAcc 0 ds

/-- The same accumulation over `Int` (the strtolLoop accumulator type). -/
def intValAcc (acc : Int) (ds : List Char) : Int :=
  ds.foldl (fun a c => 10 * a + ((c.toNat : Int) - 48)) acc

/-- The spec's reading of C4's "valid non-negative integer" port substring:
a nonempty, all-digits numeral.  This definition follows the claim's words,
for comparison against the code's actual acceptance condition. -/
def specValidNumeral (p : List Char) : Bool :=
  !(p == []) && p.all isDigitC

/-- Declarative characterization of the port substrings `nc_parse_ipport`
accepts: the empty substring (strtol converts nothing, yielding port 0), or
optional whitespace, an optional sign and a nonempty digit run consuming the
whole substring, whose signed value lies in [0, 65535] (so a '-' sign is
accepted only on a zero numeral). -/
def PortAccepted (p : List Char) : Prop :=
  p = [] ∨ ∃ w sgn ds, p = w ++ sgn ++ ds ∧ (∀ c ∈ w, isSpaceC c = true) ∧
    (sgn = [] ∨ sgn = ['+'] ∨ sgn = ['-']) ∧ ds ≠ [] ∧ (∀ c ∈ ds, isDigitC c = true) ∧
    natValD ds ≤ 65535 ∧ (sgn = ['-'] → natValD ds = 0)

/-- Witness input: a data line whose local endpoint is loopback. -/
def cLineLoop : List Char := "127.0.0.1.80 10.0.0.2.80 0 0 0 0 ESTABLISHED\n".toList

/-- The run invariant maintained by ingestion: registry keys are pairwise
distinct, the retained-source list tracks `min nsources 2`, every counter is
between 1 and 255, and each connection has at least one endpoint (the
observing side's local IP) registered as a source. -/
def NetInv (st : Netcmp) : Prop :=
  st.conns.Pairwise (fun a b => connKey a ≠ connKey b) ∧
  (∀ c ∈ st.conns, c.sources.length = min c.nsources 2) ∧
  (∀ c ∈ st.conns, 1 ≤ c.nsources ∧ c.nsources ≤ 255) ∧
  (∀ c ∈ st.conns, (findSource st.sources c.ip1).isSome ∨ (findSource st.sources c.ip2).isSome)

/-- The observation counter currently recorded for key `k` (0 when the key
is not in the registry). -/
def boundIn (st : Netcmp) (k : List Char × Nat × List Char × Nat) : Nat :=
  match findConn st.conns k with
  | none => 0
  | some c => c.nsources

/-- C1 counterexample input: the same connection reported from both sides. -/
def cLinesC1 : List (List Char × List Char) :=
  [("f1".toList, "10.0.0.1.5000 10.0.0.2.80 0 0 0 0 ESTABLISHED\n".toList),
   ("f2".toList, "10.0.0.2.80 10.0.0.1.5000 0 0 0 0 ESTABLISHED\n".toList)]

/-- C1 witness input: a symmetric pair of reports over distinct addresses. -/
def cLinesC1W : List (List Char × List Char) :=
  [("f1".toList, "10.0.1.1.5000 10.0.1.2.80 0 0 0 0 ESTABLISHED\n".toList),
   ("f2".toList, "10.0.1.2.80 10.0.1.1.5000 0 0 0 0 ESTABLISHED\n".toList)]

/-- C2 counterexample input: one observation towards a host for which no
input file was supplied. -/
def cLinesC2 : List (List Char × List Char) :=
  [("f1".toList, "10.0.0.3.5000 99.9.9.9.80 0 0 0 0 ESTABLISHED\n".toList)]

/-- C2 witness input. -/
def cLinesC2W : List (List Char × List Char) :=
  [("f1".toList, "10.0.0.8.5000 99.9.9.8.80 0 0 0 0 ESTABLISHED\n".toList)]

/-- The state produced by ingesting `cLinesC2W`. -/
def cStC2W : Netcmp :=
  ⟨0, [⟨"10.0.0.8".toList, 5000, "99.9.9.8".toList, 80, "ESTABLISHED".toList, 1,
        [⟨"10.0.0.8".toList, "f1".toList⟩]⟩],
      [⟨"10.0.0.8".toList, "f1".toList⟩]⟩

/-- C3 counterexample input: a single-sided observation whose remote host is
unknown, so exactly one endpoint is registered. -/
def cLinesC3 : List (List Char × List Char) :=
  [("f1".toList, "10.0.0.4.5000 99.9.9.7.80 0 0 0 0 ESTABLISHED\n".toList)]

/-- C3 witness data: a single-source connection both of whose endpoint IPs
are registered sources. -/
def cSrcA : Source := ⟨"10.0.0.5".toList, "f1".toList⟩

/-- Second registered source for the C3 witness. -/
def cSrcB : Source := ⟨"10.0.0.6".toList, "f2".toList⟩

/-- The C3 witness connection: one contributing observation from `cSrcA`. -/
def cConnAsym : Conn :=
  ⟨"10.0.0.5".toList, 5000, "10.0.0.6".toList, 80, "ESTABLISHED".toList, 1, [cSrcA]⟩

/-- The C3 witness registry state. -/
def cStAsym : Netcmp := ⟨0, [cConnAsym], [cSrcA, cSrcB]⟩

/-- C8 witness input. -/
def cLinesC8 : List (List Char × List Char) :=
  [("f1".toList, "10.0.2.1.5000 10.0.2.2.80 0 0 0 0 ESTABLISHED\n".toList)]

/-- The state produced by ingesting `cLinesC8`. -/
def cStC8 : Netcmp :=
  ⟨0, [⟨"10.0.2.1".toList, 5000, "10.0.2.2".toList, 80, "ESTABLISHED".toList, 1,
        [⟨"10.0.2.1".toList, "f1".toList⟩]⟩],
      [⟨"10.0.2.1".toList, "f1".toList⟩]⟩

/-- The single connection of `cStC8`. -/
def cConnC8 : Conn :=
  ⟨"10.0.2.1".toList, 5000, "10.0.2.2".toList, 80, "ESTABLISHED".toList, 1,
    [⟨"10.0.2.1".toList, "f1".toList⟩]⟩

/-- A saturated connection for exercising the saturation clause. -/
def cConnSat : Conn :=
  ⟨"10.0.2.3".toList, 1, "10.0.2.4".toList, 2, "ESTABLISHED".toList, 255,
    [⟨"10.0.2.3".toList, "f1".toList⟩, ⟨"10.0.2.4".toList, "f2".toList⟩]⟩

/-- The state produced by ingesting `cLinesC1W`: one symmetric connection. -/
def cStC1W : Netcmp :=
  ⟨0, [⟨"10.0.1.1".toList, 5000, "10.0.1.2".toList, 80, "ESTABLISHED".toList, 2,
        [⟨"10.0.1.1".toList, "f1".toList⟩, ⟨"10.0.1.2".toList, "f2".toList⟩]⟩],
      [⟨"10.0.1.1".toList, "f1".toList⟩, ⟨"10.0.1.2".toList, "f2".toList⟩]⟩

/-- The single connection of `cStC2W`. -/
def cConnC2W : Conn :=
  ⟨"10.0.0.8".toList, 5000, "99.9.9.8".toList, 80, "ESTABLISHED".toList, 1,
    [⟨"10.0.0.8".toList, "f1".toList⟩]⟩

/-! ### Basic helper lemmas -/

/-- Characters with equal codepoints are equal. -/
theorem charEqOfToNat {c d : Char} (h : c.toNat = d.toNat) : c = d := by
  rcases c with ⟨⟨cv, hc⟩, pc⟩
  rcases d with ⟨⟨dv, hd⟩, pd⟩
  simp [Char.toNat, UInt32.toNat] at h
  subst h
  rfl

/-- A successful search in a prefix persists over an appended suffix. -/
theorem findq_append_some {α} {p : α → Bool} {l1 : List α} (l2 : List α) {a : α}
    (h : l1.find? p = some a) : (l1 ++ l2).find? p = some a := by
  induction l1 with
  | nil => simp [List.find?] at h
  | cons x xs ih =>
    cases hx : p x with
    | true => simp_all [List.find?_cons, hx]
    | false => simp_all [List.find?_cons, hx]

/-- A failed search in a prefix delegates to the suffix. -/
theorem findq_append_none {α} {p : α → Bool} {l1 : List α} (l2 : List α)
    (h : l1.find? p = none) : (l1 ++ l2).find? p = l2.find? p := by
  induction l1 with
  | nil => simp
  | cons x xs ih =>
    cases hx : p x with
    | true => simp_all [List.find?_cons, hx]
    | false => simp_all [List.find?_cons, hx]

/-- Searching a mapped list for a predicate untouched by the map. -/
theorem findq_map_of_pred {α} (f : α → α) (p : α → Bool) (hp : ∀ x, p (f x) = p x)
    (l : List α) : (l.map f).find? p = (l.find? p).map f := by
  induction l with
  | nil => simp
  | cons x xs ih =>
    cases hx : p x with
    | true => simp [List.find?_cons, hp, hx]
    | false => simp [List.find?_cons, hp, hx, ih]

/-- Under pairwise-distinct keys, searching for a member's key finds exactly
that member. -/
theorem findq_of_pairwise_mem {α β} [BEq β] [LawfulBEq β] (key : α → β) {l : List α}
    (h : l.Pairwise (fun x y => key x ≠ key y)) {c : α} (hc : c ∈ l) :
    l.find? (fun x => key x == key c) = some c := by
  induction l with
  | nil => simp at hc
  | cons a as ih =>
    rcases List.pairwise_cons.mp h with ⟨ha, has⟩
    rcases List.mem_cons.mp hc with rfl | hc
    · simp [List.find?_cons]
    · have : (key a == key c) = false := by
        simp only [beq_eq_false_iff_ne, ne_eq]
        exact ha c hc
      simp [List.find?_cons, this, ih has hc]

/-- Swapping the arguments of `strcmp` swaps the comparison result. -/
theorem strcmpO_swap (a b : List Char) : strcmpO b a = (strcmpO a b).swap := by
  induction a generalizing b with
  | nil => cases b <;> rfl
  | cons x xs ih =>
    cases b with
    | nil => rfl
    | cons y ys =>
      simp only [strcmpO]
      rcases Nat.lt_trichotomy x.toNat y.toNat with h | h | h
      · simp [h, Nat.lt_asymm h, Ordering.swap]
      · simp [h, Nat.lt_irrefl, ih]
      · simp [h, Nat.lt_asymm h, Ordering.swap]

/-- `strcmp` returns `eq` exactly on equal strings. -/
theorem strcmpO_eq_iff (a b : List Char) : strcmpO a b = .eq ↔ a = b := by
  induction a generalizing b with
  | nil => cases b <;> simp [strcmpO]
  | cons x xs ih =>
    cases b with
    | nil => simp [strcmpO]
    | cons y ys =>
      simp only [strcmpO]
      rcases Nat.lt_trichotomy x.toNat y.toNat with h | h | h
      · have : x ≠ y := by rintro rfl; exact Nat.lt_irrefl _ h
        simp [h, this]
      · have hxy : x = y := charEqOfToNat h
        simp [h, Nat.lt_irrefl, hxy, ih]
      · have : x ≠ y := by rintro rfl; exact Nat.lt_irrefl _ h
        simp [Nat.lt_asymm h, h, this]

/-- Canonical key construction is commutative: the sorted endpoint pair does
not depend on which endpoint was reported as local. -/
theorem canonPair_comm (e1 e2 : List Char × Nat) : canonPair e1 e2 = canonPair e2 e1 := by
  unfold canonPair
  rcases h : strcmpO e1.1 e2.1 with hc | hc | hc
  · rw [strcmpO_swap, h]
    rfl
  · rw [strcmpO_swap, h]
    have hip : e1.1 = e2.1 := (strcmpO_eq_iff _ _).mp h
    simp only [Ordering.swap]
    rcases Nat.lt_trichotomy e1.2 e2.2 with hp | hp | hp
    · simp [hp, Nat.lt_asymm hp]
    · have he : e1 = e2 := Prod.ext hip hp
      simp [he]
    · simp [hp, Nat.lt_asymm hp]
  · rw [strcmpO_swap, h]
    rfl

/-- `updSources` never changes the connection key. -/
theorem updSources_key (c : Conn) (s : Source) : connKey (updSources c s) = connKey c := by
  unfold updSources
  split
  · rfl
  · split <;> rfl

/-- `updSources` never changes the recorded state. -/
theorem updSources_state (c : Conn) (s : Source) : (updSources c s).state = c.state := by
  unfold updSources
  split
  · rfl
  · split <;> rfl

/-- `updSources` never changes the endpoint fields. -/
theorem updSources_ips (c : Conn) (s : Source) :
    (updSources c s).ip1 = c.ip1 ∧ (updSources c s).ip2 = c.ip2 := by
  unfold updSources
  split
  · exact ⟨rfl, rfl⟩
  · split <;> exact ⟨rfl, rfl⟩

/-- One observation increments the counter by at most one. -/
theorem updSources_ns_le (c : Conn) (s : Source) :
    (updSources c s).nsources ≤ c.nsources + 1 := by
  unfold updSources
  split
  · exact Nat.le_refl _
  · split
    · exact Nat.le_refl _
    · exact Nat.le_succ _

/-- Below saturation the counter is incremented by exactly one. -/
theorem updSources_ns_of_lt (c : Conn) (s : Source) (h : c.nsources < 255) :
    (updSources c s).nsources = c.nsources + 1 := by
  unfold updSources
  split
  · rfl
  · simp [h]

/-- At `UINT8_MAX` the counter saturates instead of wrapping. -/
theorem updSources_ns_of_sat (c : Conn) (s : Source) (h : c.nsources = 255) :
    (updSources c s).nsources = 255 := by
  unfold updSources
  simp [h]

/-- The counter never exceeds 255. -/
theorem updSources_ns_ub (c : Conn) (s : Source) (h : c.nsources ≤ 255) :
    (updSources c s).nsources ≤ 255 := by
  unfold updSources
  split <;> try split
  all_goals (try simp) <;> omega

/-- The retained-source list keeps tracking `min nsources 2`. -/
theorem updSources_srclen (c : Conn) (s : Source)
    (h : c.sources.length = min c.nsources 2) :
    (updSources c s).sources.length = min (updSources c s).nsources 2 := by
  unfold updSources
  split <;> try split
  all_goals (try simp [h]) <;> omega

/-! ### Lemmas about the registries under one observation -/

/-- The per-connection update applied inside `nc_observe` preserves keys. -/
theorem updIf_key (k : List Char × Nat × List Char × Nat) (ncs : Source) (c : Conn) :
    connKey (if connKey c == k then updSources c ncs else c) = connKey c := by
  split
  · exact updSources_key c ncs
  · rfl

/-- Finding in a singleton list whose element bears the sought key. -/
theorem findq_singleton_self {α β} [BEq β] [LawfulBEq β] (key : α → β) (x : α) (k : β)
    (h : key x = k) : List.find? (fun c => key c == k) [x] = some x := by
  simp [List.find?, h]

/-- A successful lookup returns a connection bearing the requested key. -/
theorem findConn_some_key {conns : List Conn} {k} {c : Conn}
    (h : findConn conns k = some c) : connKey c = k := by
  have := List.find?_some h
  exact beq_iff_eq.mp this

/-- A successful lookup returns a member of the registry. -/
theorem findConn_some_mem {conns : List Conn} {k} {c : Conn}
    (h : findConn conns k = some c) : c ∈ conns :=
  List.mem_of_find?_eq_some h

/-- Looking up any key after the mapped update of `nc_observe`. -/
theorem findConn_map_upd (conns : List Conn) (k k' : List Char × Nat × List Char × Nat)
    (ncs : Source) :
    findConn (conns.map (fun c => if connKey c == k then updSources c ncs else c)) k'
      = (findConn conns k').map (fun c => if connKey c == k then updSources c ncs else c) := by
  unfold findConn
  exact findq_map_of_pred _ _ (fun c => by rw [updIf_key]) conns

/-- After a non-loopback observation, the observed canonical key is present
in the connection registry. -/
theorem observe_find_isSome (st : Netcmp) (src ip1 : List Char) (p1 : Nat)
    (ip2 : List Char) (p2 : Nat) (stt : List Char)
    (h1 : ip1 ≠ loopbackIp) (h2 : ip2 ≠ loopbackIp) :
    (findConn (nc_observe st src ip1 p1 ip2 p2 stt).conns
      (canonKeyOf ip1 p1 ip2 p2)).isSome := by
  have hor : ¬ (ip1 = loopbackIp ∨ ip2 = loopbackIp) := by tauto
  rw [nc_observe, if_neg hor]
  simp only
  cases hfind : findConn st.conns (canonKeyOf ip1 p1 ip2 p2) with
  | none =>
    unfold findConn at hfind ⊢
    rw [findq_append_none _ hfind, findq_singleton_self connKey]
    · rfl
    · rw [updSources_key]
      rfl
  | some c =>
    rw [findConn_map_upd, hfind]
    simp

/-! ### C10: blank data lines are skipped without any state change -/

/-- C10: a blank data line (a lone newline) is silently skipped: it creates
no connection, registers no source, increments no counter and causes no
parse error — the run state is returned unchanged. -/
theorem blank_line_is_noop : ∀ (st : Netcmp) (src : List Char),
    stepLine st src ['\n'] = some st := by
  intro st src
  rfl

/-! ### C9: loopback observations are skipped and counted -/

/-- C9: when a parsed data line has the loopback address 127.0.0.1 on either
endpoint, processing the line only increments the localhost-skip counter:
no canonical key is inserted, no connection is created or updated, and no
source is registered. -/
theorem loopback_line_only_counts :
    ∀ (st : Netcmp) (src line ip1 : List Char) (p1 : Nat) (ip2 : List Char)
      (p2 : Nat) (stt : List Char),
    parseRowData line = RowResult.row ip1 p1 ip2 p2 stt →
    (ip1 = loopbackIp ∨ ip2 = loopbackIp) →
    stepLine st src line =
      some { nlocalhost := st.nlocalhost + 1, conns := st.conns, sources := st.sources } := by
  intro st src line ip1 p1 ip2 p2 stt hparse hlo
  rw [stepLine, hparse]
  simp only [nc_observe, if_pos hlo]

/-- Witness for C9 at a concrete loopback line. -/
theorem loopback_line_only_counts_witness :
    stepLine nc_init "f1".toList cLineLoop = some { nlocalhost := 1, conns := [], sources := [] } :=
  loopback_line_only_counts nc_init "f1".toList cLineLoop "127.0.0.1".toList 80
    "10.0.0.2".toList 80 "ESTABLISHED".toList (by decide) (by decide)

/-! ### C6: canonical key construction is commutative -/

/-- C6: the canonical key is independent of which endpoint was local —
`canonPair` is commutative — and consequently observing (E1 local, E2
remote) and then (E2 local, E1 remote) updates the existing connection
entry instead of inserting a second one. -/
theorem canon_key_commutes :
    ∀ (ip1 : List Char) (p1 : Nat) (ip2 : List Char) (p2 : Nat),
    canonPair (ip1, p1) (ip2, p2) = canonPair (ip2, p2) (ip1, p1) ∧
    (∀ (st : Netcmp) (src1 src2 stt1 stt2 : List Char),
      ip1 ≠ loopbackIp → ip2 ≠ loopbackIp →
      (nc_observe (nc_observe st src1 ip1 p1 ip2 p2 stt1) src2 ip2 p2 ip1 p1 stt2).conns.length
        = (nc_observe st src1 ip1 p1 ip2 p2 stt1).conns.length) := by
  intro ip1 p1 ip2 p2
  constructor
  · exact canonPair_comm _ _
  · intro st src1 src2 stt1 stt2 h1 h2
    have hkey : canonKeyOf ip2 p2 ip1 p1 = canonKeyOf ip1 p1 ip2 p2 := by
      unfold canonKeyOf
      rw [canonPair_comm]
    have hor : ¬ (ip2 = loopbackIp ∨ ip1 = loopbackIp) := by tauto
    have hfind := observe_find_isSome st src1 ip1 p1 ip2 p2 stt1 h1 h2
    rcases hsome : findConn (nc_observe st src1 ip1 p1 ip2 p2 stt1).conns
        (canonKeyOf ip1 p1 ip2 p2) with _ | c
    · rw [hsome] at hfind
      simp at hfind
    · conv in nc_observe (nc_observe st src1 ip1 p1 ip2 p2 stt1) src2 ip2 p2 ip1 p1 stt2 =>
        rw [nc_observe, if_neg hor]
      simp only [hkey, hsome, List.length_map]

/-- Witness for C6's registry consequence at concrete endpoints. -/
theorem canon_key_commutes_witness :
    (nc_observe (nc_observe nc_init "f1".toList "10.0.0.1".toList 5000 "10.0.0.2".toList 80
        "ESTABLISHED".toList) "f2".toList "10.0.0.2".toList 80 "10.0.0.1".toList 5000
        "ESTABLISHED".toList).conns.length
      = (nc_observe nc_init "f1".toList "10.0.0.1".toList 5000 "10.0.0.2".toList 80
        "ESTABLISHED".toList).conns.length :=
  (canon_key_commutes "10.0.0.1".toList 5000 "10.0.0.2".toList 80).2 nc_init
    "f1".toList "f2".toList "ESTABLISHED".toList "ESTABLISHED".toList
    (by decide) (by decide)

/-! ### C7: the state field is written only at creation -/

/-- A token from the fixed TCP state list is at most 15 characters, so the
`strlcpy` into the 16-byte `ncc_state` buffer copies it whole. -/
theorem tcpState_take15 {stt : List Char} (h : stt ∈ tcpStates) : stt.take 15 = stt := by
  simp only [tcpStates, List.mem_map] at h
  rcases h with ⟨s, hs, rfl⟩
  fin_cases hs <;> rfl

/-- C7: a connection's recorded state is set only when the record is created
— it then equals the first observation's reported state — and any further
observation of the same canonical tuple, whatever state it reports, leaves
the recorded state unchanged. -/
theorem state_first_observation_wins :
    ∀ (st : Netcmp) (src ip1 : List Char) (p1 : Nat) (ip2 : List Char) (p2 : Nat)
      (stt : List Char),
    ip1 ≠ loopbackIp → ip2 ≠ loopbackIp →
    (findConn st.conns (canonKeyOf ip1 p1 ip2 p2) = none → stt ∈ tcpStates →
      (findConn (nc_observe st src ip1 p1 ip2 p2 stt).conns
        (canonKeyOf ip1 p1 ip2 p2)).map Conn.state = some stt) ∧
    (∀ c : Conn, findConn st.conns (canonKeyOf ip1 p1 ip2 p2) = some c →
      (findConn (nc_observe st src ip1 p1 ip2 p2 stt).conns
        (canonKeyOf ip1 p1 ip2 p2)).map Conn.state = some c.state) := by
  intro st src ip1 p1 ip2 p2 stt h1 h2
  have hor : ¬ (ip1 = loopbackIp ∨ ip2 = loopbackIp) := by tauto
  constructor
  · intro hnone hstt
    rw [nc_observe, if_neg hor]
    simp only [hnone]
    unfold findConn at hnone ⊢
    rw [findq_append_none _ hnone, findq_singleton_self connKey]
    · simp [updSources_state, tcpState_take15 hstt]
    · rw [updSources_key]
      rfl
  · intro c hsome
    rw [nc_observe, if_neg hor]
    simp only [findConn_map_upd, hsome]
    have hbeq : (connKey c == canonKeyOf ip1 p1 ip2 p2) = true :=
      beq_iff_eq.mpr (findConn_some_key hsome)
    simp [Function.comp, hbeq, updSources_state]
    rw [if_pos (findConn_some_key hsome), updSources_state]

/-- Witness for C7's creation clause at a concrete observation. -/
theorem state_first_observation_wins_witness :
    (findConn (nc_observe nc_init "f1".toList "10.0.0.1".toList 5000 "10.0.0.2".toList 80
        "ESTABLISHED".toList).conns
      (canonKeyOf "10.0.0.1".toList 5000 "10.0.0.2".toList 80)).map Conn.state
      = some "ESTABLISHED".toList :=
  (state_first_observation_wins nc_init "f1".toList "10.0.0.1".toList 5000
    "10.0.0.2".toList 80 "ESTABLISHED".toList (by decide) (by decide)).1
    (by decide) (by decide)

/-! ### Lemmas about strtol and the port substring -/

/-- The strtol digit loop consumes exactly the maximal digit prefix. -/
theorem strtolLoop_spec : ∀ (s : List Char) (acc : Int),
    strtolLoop acc s = (intValAcc acc (s.takeWhile isDigitC), s.dropWhile isDigitC) := by
  intro s
  induction s with
  | nil => intro acc; rfl
  | cons c cs ih =>
    intro acc
    cases hc : isDigitC c with
    | true =>
      rw [strtolLoop, if_pos hc, ih]
      simp [List.takeWhile_cons, List.dropWhile_cons, hc, intValAcc]
    | false =>
      rw [strtolLoop, if_neg (by simp [hc])]
      simp [List.takeWhile_cons, List.dropWhile_cons, hc, intValAcc]

/-- On digit strings the Int accumulation is the Nat accumulation. -/
theorem intValAcc_cast : ∀ (ds : List Char) (acc : Nat),
    (∀ c ∈ ds, isDigitC c = true) → intValAcc (acc : Int) ds = (natValAcc acc ds : Int) := by
  intro ds
  induction ds with
  | nil => intro acc _; rfl
  | cons c cs ih =>
    intro acc h
    have hc : isDigitC c = true := h c (List.mem_cons_self c cs)
    have h48 : 48 ≤ c.toNat := by
      simp [isDigitC] at hc
      exact hc.1
    have : (10 : Int) * acc + ((c.toNat : Int) - 48) = ((10 * acc + (c.toNat - 48) : Nat) : Int) := by
      push_cast [h48]
      ring
    simp only [intValAcc, natValAcc, List.foldl_cons]
    rw [this]
    exact ih _ (fun x hx => h x (List.mem_cons_of_mem _ hx))

/-- An all-satisfying list is its own takeWhile. -/
theorem takeWhile_all {α} {q : α → Bool} : ∀ {l : List α},
    (∀ c ∈ l, q c = true) → l.takeWhile q = l := by
  intro l
  induction l with
  | nil => intro _; rfl
  | cons c cs ih =>
    intro h
    rw [List.takeWhile_cons, h c (List.mem_cons_self c cs)]
    simp [ih (fun x hx => h x (List.mem_cons_of_mem _ hx))]

/-- dropWhile empties exactly the all-satisfying lists. -/
theorem dropWhile_nil_iff {α} {q : α → Bool} : ∀ {l : List α},
    l.dropWhile q = [] ↔ ∀ c ∈ l, q c = true := by
  intro l
  induction l with
  | nil => simp
  | cons c cs ih =>
    rw [List.dropWhile_cons]
    constructor
    · intro h
      by_cases hc : q c = true
      · rw [if_pos hc] at h
        intro x hx
        rcases List.mem_cons.mp hx with rfl | hx
        · exact hc
        · exact ih.mp h x hx
      · rw [if_neg hc] at h
        exact absurd h (by simp)
    · intro h
      rw [if_pos (h c (List.mem_cons_self c cs))]
      exact ih.mpr (fun x hx => h x (List.mem_cons_of_mem _ hx))

/-- dropWhile skips over an all-satisfying prefix. -/
theorem dropWhile_append_all {α} {q : α → Bool} : ∀ (w r : List α),
    (∀ c ∈ w, q c = true) → (w ++ r).dropWhile q = r.dropWhile q := by
  intro w
  induction w with
  | nil => intro r _; rfl
  | cons c cs ih =>
    intro r h
    rw [List.cons_append, List.dropWhile_cons, if_pos (h c (List.mem_cons_self c cs))]
    exact ih r (fun x hx => h x (List.mem_cons_of_mem _ hx))

/-- dropWhile stops immediately at a failing head. -/
theorem dropWhile_head_false {α} {q : α → Bool} (c : α) (r : List α) (h : q c = false) :
    (c :: r).dropWhile q = c :: r := by
  rw [List.dropWhile_cons, h]
  simp

/-- Digits are not whitespace. -/
theorem digit_not_space {c : Char} (h : isDigitC c = true) : isSpaceC c = false := by
  simp [isDigitC] at h
  simp [isSpaceC]
  omega

/-- strtol on an all-whitespace or empty string converts nothing. -/
theorem strtol10_eq_nil {p : List Char} (h : p.dropWhile isSpaceC = []) :
    strtol10 p = (0, p) := by
  unfold strtol10
  rw [h]

/-- strtol after a '-' sign followed by a digit. -/
theorem strtol10_eq_minus {p : List Char} {d : Char} {r : List Char}
    (h : p.dropWhile isSpaceC = '-' :: d :: r) (hd : isDigitC d = true) :
    strtol10 p =
      (-(intValAcc 0 ((d :: r).takeWhile isDigitC)), (d :: r).dropWhile isDigitC) := by
  unfold strtol10
  rw [h]
  simp [hd, strtolLoop_spec]

/-- strtol after a '-' sign not followed by a digit converts nothing. -/
theorem strtol10_eq_minus_bad {p : List Char} {r : List Char}
    (h : p.dropWhile isSpaceC = '-' :: r)
    (hr : r = [] ∨ ∃ d r', r = d :: r' ∧ isDigitC d = false) :
    strtol10 p = (0, p) := by
  unfold strtol10
  rw [h]
  rcases hr with rfl | ⟨d, r', rfl, hd⟩
  · simp
  · simp [hd]

/-- strtol after a '+' sign followed by a digit. -/
theorem strtol10_eq_plus {p : List Char} {d : Char} {r : List Char}
    (h : p.dropWhile isSpaceC = '+' :: d :: r) (hd : isDigitC d = true) :
    strtol10 p =
      (intValAcc 0 ((d :: r).takeWhile isDigitC), (d :: r).dropWhile isDigitC) := by
  unfold strtol10
  rw [h]
  simp [hd, strtolLoop_spec]

/-- strtol after a '+' sign not followed by a digit converts nothing. -/
theorem strtol10_eq_plus_bad {p : List Char} {r : List Char}
    (h : p.dropWhile isSpaceC = '+' :: r)
    (hr : r = [] ∨ ∃ d r', r = d :: r' ∧ isDigitC d = false) :
    strtol10 p = (0, p) := by
  unfold strtol10
  rw [h]
  rcases hr with rfl | ⟨d, r', rfl, hd⟩
  · simp
  · simp [hd]

/-- strtol on a leading digit. -/
theorem strtol10_eq_digit {p : List Char} {c : Char} {r : List Char}
    (h : p.dropWhile isSpaceC = c :: r) (hc : isDigitC c = true)
    (hm : c ≠ '-') (hp : c ≠ '+') :
    strtol10 p =
      (intValAcc 0 ((c :: r).takeWhile isDigitC), (c :: r).dropWhile isDigitC) := by
  unfold strtol10
  rw [h]
  simp [hm, hp, hc, strtolLoop_spec]

/-- strtol on a head that is neither sign nor digit converts nothing. -/
theorem strtol10_eq_other {p : List Char} {c : Char} {r : List Char}
    (h : p.dropWhile isSpaceC = c :: r) (hc : isDigitC c = false)
    (hm : c ≠ '-') (hp : c ≠ '+') :
    strtol10 p = (0, p) := by
  unfold strtol10
  rw [h]
  simp [hm, hp, hc]

/-- The Int accumulation of a digit string, started from zero, is its Nat
value. -/
theorem intValAcc_zero_cast {ds : List Char} (hall : ∀ c ∈ ds, isDigitC c = true) :
    intValAcc 0 ds = (natValD ds : Int) := by
  have h := intValAcc_cast ds 0 hall
  simpa [natValD] using h

/-- In a whitespace/sign/digits decomposition of the port substring, the
whitespace-stripped remainder is exactly the sign and digits. -/
theorem portDecomp_dropWhile {p w sgn ds : List Char} (hp : p = w ++ sgn ++ ds)
    (hw : ∀ c ∈ w, isSpaceC c = true)
    (hsgn : sgn = [] ∨ sgn = ['+'] ∨ sgn = ['-'])
    (hds : ds ≠ []) (hdig : ∀ c ∈ ds, isDigitC c = true) :
    p.dropWhile isSpaceC = sgn ++ ds := by
  subst hp
  rw [List.append_assoc, dropWhile_append_all w _ hw]
  rcases hsgn with rfl | rfl | rfl
  · cases ds with
    | nil => exact absurd rfl hds
    | cons d ds' =>
      simpa using dropWhile_head_false d ds'
        (digit_not_space (hdig d (List.mem_cons_self d ds')))
  · simpa using dropWhile_head_false '+' ds (by decide)
  · simpa using dropWhile_head_false '-' ds (by decide)

/-- A nonempty accepted port substring decomposes, after whitespace
stripping, into an optional sign and a digit run with the value bounds. -/
theorem portAccepted_cases {p : List Char} (h : PortAccepted p) (hpne : p ≠ []) :
    ∃ sgn ds, p.dropWhile isSpaceC = sgn ++ ds ∧
      (sgn = [] ∨ sgn = ['+'] ∨ sgn = ['-']) ∧ ds ≠ [] ∧
      (∀ c ∈ ds, isDigitC c = true) ∧ natValD ds ≤ 65535 ∧
      (sgn = ['-'] → natValD ds = 0) := by
  rcases h with hp | ⟨w, sgn, ds, hp, hw, hsgn, hds, hdig, hle, hneg⟩
  · exact absurd hp hpne
  · exact ⟨sgn, ds, portDecomp_dropWhile hp hw hsgn hds hdig, hsgn, hds, hdig, hle, hneg⟩

/-- Building an accepted port substring from its whitespace-stripped form. -/
theorem portAccepted_intro {p sgn ds : List Char}
    (hdw : p.dropWhile isSpaceC = sgn ++ ds)
    (hsgn : sgn = [] ∨ sgn = ['+'] ∨ sgn = ['-']) (hds : ds ≠ [])
    (hdig : ∀ c ∈ ds, isDigitC c = true) (hle : natValD ds ≤ 65535)
    (hneg : sgn = ['-'] → natValD ds = 0) : PortAccepted p := by
  refine Or.inr ⟨p.takeWhile isSpaceC, sgn, ds, ?_, ?_, hsgn, hds, hdig, hle, hneg⟩
  · rw [List.append_assoc, ← hdw, List.takeWhile_append_dropWhile]
  · intro c hc
    exact List.mem_takeWhile_imp hc

/-- The exact acceptance condition of the port parse: strtol consumes the
whole substring into a value within [0, 65535] exactly on the substrings of
`PortAccepted`. -/
theorem strtol_ok_iff (p : List Char) :
    (0 ≤ (strtol10 p).1 ∧ (strtol10 p).1 ≤ 65535 ∧ (strtol10 p).2 = []) ↔ PortAccepted p := by
  cases hs1 : p.dropWhile isSpaceC with
  | nil =>
    rw [strtol10_eq_nil hs1]
    constructor
    · rintro ⟨-, -, hp⟩
      exact Or.inl hp
    · rintro (hp | ⟨w, sgn, ds, hp, hw, hsgn, hds, hdig, -, -⟩)
      · exact ⟨le_refl 0, by norm_num, hp⟩
      · exfalso
        cases ds with
        | nil => exact hds rfl
        | cons d ds' =>
          have hdin : d ∈ p := by
            subst hp
            simp
          have hsp : isSpaceC d = true := dropWhile_nil_iff.mp hs1 d hdin
          rw [digit_not_space (hdig d (List.mem_cons_self d ds'))] at hsp
          exact Bool.false_ne_true hsp
  | cons c r =>
    have hpne : p ≠ [] := by
      intro hp
      rw [hp] at hs1
      exact absurd hs1 (by simp)
    by_cases hcm : c = '-'
    · subst hcm
      cases r with
      | nil =>
        rw [strtol10_eq_minus_bad hs1 (Or.inl rfl)]
        dsimp only
        constructor
        · rintro ⟨-, -, hp⟩
          exact absurd hp hpne
        · intro hacc
          exfalso
          rcases portAccepted_cases hacc hpne with ⟨sgn, ds, hdw, hsgn, hds, hdig, -, -⟩
          rw [hs1] at hdw
          rcases hsgn with rfl | rfl | rfl
          · rw [List.nil_append] at hdw
            have := hdig '-' (by rw [← hdw]; exact List.mem_cons_self _ _)
            exact absurd this (by decide)
          · injection hdw with h1 h2
            exact absurd h1 (by decide)
          · injection hdw with h1 h2
            exact hds h2.symm
      | cons d r' =>
        cases hd : isDigitC d with
        | false =>
          rw [strtol10_eq_minus_bad hs1 (Or.inr ⟨d, r', rfl, hd⟩)]
          dsimp only
          constructor
          · rintro ⟨-, -, hp⟩
            exact absurd hp hpne
          · intro hacc
            exfalso
            rcases portAccepted_cases hacc hpne with ⟨sgn, ds, hdw, hsgn, hds, hdig, -, -⟩
            rw [hs1] at hdw
            rcases hsgn with rfl | rfl | rfl
            · rw [List.nil_append] at hdw
              have := hdig '-' (by rw [← hdw]; exact List.mem_cons_self _ _)
              exact absurd this (by decide)
            · injection hdw with h1 h2
              exact absurd h1 (by decide)
            · injection hdw with h1 h2
              have h2' : d :: r' = ds := h2
              have := hdig d (by rw [← h2']; exact List.mem_cons_self _ _)
              rw [hd] at this
              exact Bool.false_ne_true this
        | true =>
          rw [strtol10_eq_minus hs1 hd]
          dsimp only
          constructor
          · rintro ⟨hge, -, hdrop⟩
            have hall : ∀ x ∈ d :: r', isDigitC x = true := dropWhile_nil_iff.mp hdrop
            rw [takeWhile_all hall, intValAcc_zero_cast hall] at hge
            have hzero : natValD (d :: r') = 0 := by omega
            exact portAccepted_intro hs1 (Or.inr (Or.inr rfl)) (by simp) hall
              (by omega) (fun _ => hzero)
          · intro hacc
            rcases portAccepted_cases hacc hpne with ⟨sgn, ds, hdw, hsgn, hds, hdig, hle, hneg⟩
            rw [hs1] at hdw
            rcases hsgn with rfl | rfl | rfl
            · rw [List.nil_append] at hdw
              have := hdig '-' (by rw [← hdw]; exact List.mem_cons_self _ _)
              exact absurd this (by decide)
            · injection hdw with h1 h2
              exact absurd h1 (by decide)
            · injection hdw with h1 h2
              subst h2
              have hzero := hneg rfl
              refine ⟨?_, ?_, dropWhile_nil_iff.mpr hdig⟩
              · rw [takeWhile_all hdig, intValAcc_zero_cast hdig, hzero]
                norm_num
              · rw [takeWhile_all hdig, intValAcc_zero_cast hdig, hzero]
                norm_num
    · by_cases hcp : c = '+'
      · subst hcp
        cases r with
        | nil =>
          rw [strtol10_eq_plus_bad hs1 (Or.inl rfl)]
          dsimp only
          constructor
          · rintro ⟨-, -, hp⟩
            exact absurd hp hpne
          · intro hacc
            exfalso
            rcases portAccepted_cases hacc hpne with ⟨sgn, ds, hdw, hsgn, hds, hdig, -, -⟩
            rw [hs1] at hdw
            rcases hsgn with rfl | rfl | rfl
            · rw [List.nil_append] at hdw
              have := hdig '+' (by rw [← hdw]; exact List.mem_cons_self _ _)
              exact absurd this (by decide)
            · injection hdw with h1 h2
              exact hds h2.symm
            · injection hdw with h1 h2
              exact absurd h1 (by decide)
        | cons d r' =>
          cases hd : isDigitC d with
          | false =>
            rw [strtol10_eq_plus_bad hs1 (Or.inr ⟨d, r', rfl, hd⟩)]
            dsimp only
            constructor
            · rintro ⟨-, -, hp⟩
              exact absurd hp hpne
            · intro hacc
              exfalso
              rcases portAccepted_cases hacc hpne with ⟨sgn, ds, hdw, hsgn, hds, hdig, -, -⟩
              rw [hs1] at hdw
              rcases hsgn with rfl | rfl | rfl
              · rw [List.nil_append] at hdw
                have := hdig '+' (by rw [← hdw]; exact List.mem_cons_self _ _)
                exact absurd this (by decide)
              · injection hdw with h1 h2
                have h2' : d :: r' = ds := h2
                have := hdig d (by rw [← h2']; exact List.mem_cons_self _ _)
                rw [hd] at this
                exact Bool.false_ne_true this
              · injection hdw with h1 h2
                exact absurd h1 (by decide)
          | true =>
            rw [strtol10_eq_plus hs1 hd]
            dsimp only
            constructor
            · rintro ⟨-, hle, hdrop⟩
              have hall : ∀ x ∈ d :: r', isDigitC x = true := dropWhile_nil_iff.mp hdrop
              rw [takeWhile_all hall, intValAcc_zero_cast hall] at hle
              exact portAccepted_intro hs1 (Or.inr (Or.inl rfl)) (by simp) hall
                (by exact_mod_cast hle) (by simp)
            · intro hacc
              rcases portAccepted_cases hacc hpne with ⟨sgn, ds, hdw, hsgn, hds, hdig, hle, hneg⟩
              rw [hs1] at hdw
              rcases hsgn with rfl | rfl | rfl
              · rw [List.nil_append] at hdw
                have := hdig '+' (by rw [← hdw]; exact List.mem_cons_self _ _)
                exact absurd this (by decide)
              · injection hdw with h1 h2
                subst h2
                refine ⟨?_, ?_, dropWhile_nil_iff.mpr hdig⟩
                · rw [takeWhile_all hdig, intValAcc_zero_cast hdig]
                  positivity
                · rw [takeWhile_all hdig, intValAcc_zero_cast hdig]
                  exact_mod_cast hle
              · injection hdw with h1 h2
                exact absurd h1 (by decide)
      · cases hcd : isDigitC c with
        | true =>
          rw [strtol10_eq_digit hs1 hcd hcm hcp]
          dsimp only
          constructor
          · rintro ⟨-, hle, hdrop⟩
            have hall : ∀ x ∈ c :: r, isDigitC x = true := dropWhile_nil_iff.mp hdrop
            rw [takeWhile_all hall, intValAcc_zero_cast hall] at hle
            exact portAccepted_intro hs1 (Or.inl rfl) (by simp) hall
              (by exact_mod_cast hle) (by simp)
          · intro hacc
            rcases portAccepted_cases hacc hpne with ⟨sgn, ds, hdw, hsgn, hds, hdig, hle, hneg⟩
            rw [hs1] at hdw
            rcases hsgn with rfl | rfl | rfl
            · rw [List.nil_append] at hdw
              subst hdw
              refine ⟨?_, ?_, dropWhile_nil_iff.mpr hdig⟩
              · rw [takeWhile_all hdig, intValAcc_zero_cast hdig]
                positivity
              · rw [takeWhile_all hdig, intValAcc_zero_cast hdig]
                exact_mod_cast hle
            · injection hdw with h1 h2
              exact absurd h1 hcp
            · injection hdw with h1 h2
              exact absurd h1 hcm
        | false =>
          rw [strtol10_eq_other hs1 hcd hcm hcp]
          dsimp only
          constructor
          · rintro ⟨-, -, hp⟩
            exact absurd hp hpne
          · intro hacc
            exfalso
            rcases portAccepted_cases hacc hpne with ⟨sgn, ds, hdw, hsgn, hds, hdig, -, -⟩
            rw [hs1] at hdw
            rcases hsgn with rfl | rfl | rfl
            · rw [List.nil_append] at hdw
              have := hdig c (by rw [← hdw]; exact List.mem_cons_self _ _)
              rw [hcd] at this
              exact Bool.false_ne_true this
            · injection hdw with h1 h2
              exact absurd h1 hcp
            · injection hdw with h1 h2
              exact absurd h1 hcm

/-- A dot-free token has no separator split. -/
theorem lastDotSplit_none {s : List Char} (h : '.' ∉ s) : lastDotSplit s = none := by
  induction s with
  | nil => rfl
  | cons c rest ih =>
    rw [lastDotSplit, ih (fun hm => h (List.mem_cons_of_mem _ hm))]
    rw [if_neg (by intro hc; subst hc; exact h (List.mem_cons_self _ _))]

/-- Splitting anchors on the rightmost dot: appending a dot-free port part
after a dot recovers the two components. -/
theorem lastDotSplit_append (a : List Char) {p : List Char} (h : '.' ∉ p) :
    lastDotSplit (a ++ '.' :: p) = some (a, p) := by
  induction a with
  | nil =>
    rw [List.nil_append, lastDotSplit, lastDotSplit_none h]
    simp
  | cons c a' ih =>
    rw [List.cons_append, lastDotSplit, ih]

/-- Unfolded form of the endpoint normalizer on a token with a dot-free port
part. -/
theorem nc_parse_ipport_eq (outbufsz : Nat) (a : List Char) {p : List Char} (h : '.' ∉ p) :
    nc_parse_ipport outbufsz (a ++ '.' :: p) =
      if (strtol10 p).1 < 0 ∨ 65535 < (strtol10 p).1 ∨ (strtol10 p).2 ≠ [] then none
      else some (a.take (outbufsz - 1), (strtol10 p).1.toNat) := by
  rw [nc_parse_ipport, lastDotSplit_append a h]

/-- C4 counterexample: on the token "a." the port substring is empty — not a
valid non-negative integer numeral — yet the endpoint normalizer succeeds,
returning address "a" and port 0 (strtol converts nothing and reports 0 with
no trailing characters). -/
theorem empty_port_substring_accepted :
    nc_parse_ipport 16 ('a' :: '.' :: []) = some (['a'], 0) ∧
      specValidNumeral [] = false := by
  constructor
  · rfl
  · rfl

/-- C4 as amended: the normalizer fails exactly when the token has no dot,
or the (nonempty) port substring after the last dot is not of the form
optional whitespace, an optional sign and a digit run reaching the end of
the substring with signed value in [0, 65535]; an empty port substring
succeeds with port 0 (`PortAccepted` states these acceptance conditions). -/
theorem port_parse_failure_conditions :
    (∀ s : List Char, '.' ∉ s → nc_parse_ipport 16 s = none) ∧
    (∀ a p : List Char, '.' ∉ p →
      (nc_parse_ipport 16 (a ++ '.' :: p) = none ↔ ¬ PortAccepted p)) := by
  constructor
  · intro s hs
    rw [nc_parse_ipport, lastDotSplit_none hs]
  · intro a p hp
    rw [nc_parse_ipport_eq 16 a hp, ← strtol_ok_iff]
    constructor
    · intro hnone hok
      have hC : ¬ ((strtol10 p).1 < 0 ∨ 65535 < (strtol10 p).1 ∨ (strtol10 p).2 ≠ []) := by
        push_neg
        exact ⟨hok.1, hok.2.1, hok.2.2⟩
      rw [if_neg hC] at hnone
      exact Option.some_ne_none _ hnone
    · intro hnok
      have hC : (strtol10 p).1 < 0 ∨ 65535 < (strtol10 p).1 ∨ (strtol10 p).2 ≠ [] := by
        by_contra hC
        push_neg at hC
        exact hnok ⟨hC.1, hC.2.1, hC.2.2⟩
      rw [if_pos hC]

/-- Witness for C4's amended failure conditions: a separator-free token and
an out-of-range port both fail. -/
theorem port_parse_failure_conditions_witness :
    nc_parse_ipport 16 ("abc".toList) = none ∧ ¬ PortAccepted ("70000".toList) :=
  ⟨port_parse_failure_conditions.1 "abc".toList (by decide),
   (port_parse_failure_conditions.2 "1.2".toList "70000".toList (by decide)).mp (by decide)⟩

/-- The decimal rendering of `n < 10^k` has at most `k` digits. -/
theorem natDecAux_len : ∀ (fuel n k : Nat), n < 10 ^ k → (natDecAux fuel n).length ≤ k := by
  intro fuel
  induction fuel with
  | zero =>
    intro n k _
    simp [natDecAux]
  | succ fuel ih =>
    intro n k hn
    cases n with
    | zero => simp [natDecAux]
    | succ m =>
      have hk : k ≠ 0 := by
        intro hk
        rw [hk, pow_zero] at hn
        omega
      obtain ⟨k', rfl⟩ := Nat.exists_eq_succ_of_ne_zero hk
      have hdiv : (m + 1) / 10 < 10 ^ k' := by
        rw [Nat.div_lt_iff_lt_mul (by norm_num)]
        calc m + 1 < 10 ^ (k' + 1) := hn
          _ = 10 ^ k' * 10 := by ring
      rw [natDecAux]
      simp only [List.length_append, List.length_cons, List.length_nil]
      have := ih ((m + 1) / 10) k' hdiv
      omega

/-- A port value fits in five decimal digits. -/
theorem natDec_len_le5 {n : Nat} (h : n ≤ 65535) : (natDec n).length ≤ 5 := by
  rw [natDec]
  split
  · simp
  · refine natDecAux_len _ _ 5 ?_
    have h5 : (10 : Nat) ^ 5 = 100000 := by norm_num
    omega

/-- C5 counterexample: a valid token whose address part is 16 characters
long — one more than the `ncc_ip` buffer holds — parses successfully but
serializes to a truncated address, so the roundtrip does not reproduce the
address substring. -/
theorem long_address_roundtrip_fails :
    (nc_parse_ipport 16 ("0123456789012345.80".toList)).map
        (fun ipp => nc_ipport_tostr 22 ipp.1 ipp.2)
      = some ("012345678901234:80".toList) ∧
    ("012345678901234:80".toList : List Char) ≠
      "0123456789012345".toList ++ ':' :: natDec 80 := by
  constructor
  · rfl
  · decide

/-- C5 as amended: for a valid endpoint token `a.p` (digits-only dot-free
port part in range) whose address part fits the 15-character `ncc_ip`
buffer, normalizing returns the address substring and the numeric port
value, and re-serializing as `address:port` reproduces both exactly. -/
theorem roundtrip_within_buffer :
    ∀ a p : List Char, '.' ∉ p → p ≠ [] → (∀ c ∈ p, isDigitC c = true) →
      natValD p ≤ 65535 → a.length ≤ 15 →
      nc_parse_ipport 16 (a ++ '.' :: p) = some (a, natValD p) ∧
      nc_ipport_tostr 22 a (natValD p) = a ++ ':' :: natDec (natValD p) := by
  intro a p hdot hne hdig hle hlen
  have hstrtol : strtol10 p = ((natValD p : Int), []) := by
    cases p with
    | nil => exact absurd rfl hne
    | cons d r =>
      have hd : isDigitC d = true := hdig d (List.mem_cons_self d r)
      have hdw : (d :: r).dropWhile isSpaceC = d :: r :=
        dropWhile_head_false d r (digit_not_space hd)
      have hm : d ≠ '-' := by
        intro hc
        rw [hc] at hd
        exact absurd hd (by decide)
      have hp : d ≠ '+' := by
        intro hc
        rw [hc] at hd
        exact absurd hd (by decide)
      rw [strtol10_eq_digit hdw hd hm hp, takeWhile_all hdig,
        intValAcc_zero_cast hdig, dropWhile_nil_iff.mpr hdig]
  constructor
  · rw [nc_parse_ipport_eq 16 a hdot, hstrtol]
    dsimp only
    rw [if_neg (by push_neg; refine ⟨by positivity, by exact_mod_cast hle, rfl⟩)]
    rw [List.take_of_length_le (by omega)]
    simp
  · rw [nc_ipport_tostr]
    refine List.take_of_length_le ?_
    have h5 := natDec_len_le5 hle
    simp only [List.length_append, List.length_cons]
    omega

/-- Witness for C5's amended roundtrip at a concrete in-buffer token. -/
theorem roundtrip_within_buffer_witness :
    nc_parse_ipport 16 ("10.0.0.1.8080".toList) = some ("10.0.0.1".toList, natValD "8080".toList) ∧
    nc_ipport_tostr 22 "10.0.0.1".toList (natValD "8080".toList) =
      "10.0.0.1".toList ++ ':' :: natDec (natValD "8080".toList) :=
  roundtrip_within_buffer "10.0.0.1".toList "8080".toList (by decide) (by decide)
    (by decide) (by decide) (by decide)

/-! ### Invariant preservation over a run -/

/-- Registering an IP makes (or keeps) it findable. -/
theorem findSource_register_isSome (srcs : List Source) (ip lbl : List Char) :
    (findSource (registerSource srcs ip lbl).2 ip).isSome := by
  unfold registerSource
  cases h : findSource srcs ip with
  | some s => simp [h]
  | none =>
    simp only
    unfold findSource at h ⊢
    rw [findq_append_none _ h]
    simp [List.find?]

/-- Registration never removes existing source records. -/
theorem findSource_register_mono {srcs : List Source} {ip' : List Char} (ip lbl : List Char)
    (h : (findSource srcs ip').isSome) :
    (findSource (registerSource srcs ip lbl).2 ip').isSome := by
  unfold registerSource
  cases hf : findSource srcs ip with
  | some s => simpa using h
  | none =>
    simp only
    rcases Option.isSome_iff_exists.mp h with ⟨s', hs'⟩
    unfold findSource at hs' ⊢
    rw [findq_append_some _ hs']
    rfl

/-- The canonical pair is one of the two input orders. -/
theorem canonPair_cases (e1 e2 : List Char × Nat) :
    canonPair e1 e2 = (e1, e2) ∨ canonPair e1 e2 = (e2, e1) := by
  unfold canonPair
  rcases h : strcmpO e1.1 e2.1 with - | - | -
  · exact Or.inl rfl
  · dsimp only
    split
    · exact Or.inr rfl
    · exact Or.inl rfl
  · exact Or.inr rfl

/-- The counter never decreases. -/
theorem updSources_ns_ge (c : Conn) (s : Source) : c.nsources ≤ (updSources c s).nsources := by
  unfold updSources
  split <;> try split
  all_goals (try simp) <;> omega

/-- A map that fixes every member is the identity. -/
theorem map_id_of_eq {α} {f : α → α} : ∀ {l : List α}, (∀ a ∈ l, f a = a) → l.map f = l := by
  intro l
  induction l with
  | nil => intro _; rfl
  | cons a as ih =>
    intro h
    rw [List.map_cons, h a (List.mem_cons_self a as),
      ih (fun x hx => h x (List.mem_cons_of_mem _ hx))]

/-- One non-loopback observation preserves the run invariant. -/
theorem netInv_observe (st : Netcmp) (src ip1 : List Char) (p1 : Nat) (ip2 : List Char)
    (p2 : Nat) (stt : List Char) (hinv : NetInv st) :
    NetInv (nc_observe st src ip1 p1 ip2 p2 stt) := by
  obtain ⟨huniq, hlen, hbounds, hknown⟩ := hinv
  by_cases hor : ip1 = loopbackIp ∨ ip2 = loopbackIp
  · rw [nc_observe, if_pos hor]
    exact ⟨huniq, hlen, hbounds, hknown⟩
  · rw [nc_observe, if_neg hor]
    unfold NetInv
    dsimp only
    have hmono : ∀ ip', (findSource st.sources ip').isSome →
        (findSource (registerSource st.sources ip1 src).2 ip').isSome :=
      fun ip' h => findSource_register_mono ip1 src h
    cases hfind : findConn st.conns (canonKeyOf ip1 p1 ip2 p2) with
    | none =>
      refine ⟨?_, ?_, ?_, ?_⟩
      · rw [List.pairwise_append]
        refine ⟨huniq, List.pairwise_singleton _ _, ?_⟩
        intro a ha b hb
        rw [List.mem_singleton] at hb
        subst hb
        rw [updSources_key]
        have hnone := List.find?_eq_none.mp hfind a ha
        simp only [beq_iff_eq] at hnone
        intro hEq
        exact hnone (by rw [hEq]; rfl)
      · intro c hc
        rcases List.mem_append.mp hc with hc | hc
        · exact hlen c hc
        · rw [List.mem_singleton] at hc
          subst hc
          rfl
      · intro c hc
        rcases List.mem_append.mp hc with hc | hc
        · exact hbounds c hc
        · rw [List.mem_singleton] at hc
          subst hc
          exact ⟨by norm_num [updSources], by norm_num [updSources]⟩
      · intro c hc
        rcases List.mem_append.mp hc with hc | hc
        · rcases hknown c hc with h | h
          · exact Or.inl (hmono _ h)
          · exact Or.inr (hmono _ h)
        · rw [List.mem_singleton] at hc
          subst hc
          have hreg := findSource_register_isSome st.sources ip1 src
          rcases canonPair_cases (ip1, p1) (ip2, p2) with hcp | hcp
          · refine Or.inl ?_
            rw [(updSources_ips _ _).1]
            simp only [canonKeyOf, hcp]
            exact hreg
          · refine Or.inr ?_
            rw [(updSources_ips _ _).2]
            simp only [canonKeyOf, hcp]
            exact hreg
    | some c0 =>
      refine ⟨?_, ?_, ?_, ?_⟩
      · rw [List.pairwise_map]
        refine huniq.imp ?_
        intro a b hab
        rw [updIf_key, updIf_key]
        exact hab
      · intro c' hc'
        rcases List.mem_map.mp hc' with ⟨c, hc, rfl⟩
        split
        · exact updSources_srclen c _ (hlen c hc)
        · exact hlen c hc
      · intro c' hc'
        rcases List.mem_map.mp hc' with ⟨c, hc, rfl⟩
        constructor
        · split
          · exact le_trans (hbounds c hc).1 (updSources_ns_ge c _)
          · exact (hbounds c hc).1
        · split
          · exact updSources_ns_ub c _ (hbounds c hc).2
          · exact (hbounds c hc).2
      · intro c' hc'
        rcases List.mem_map.mp hc' with ⟨c, hc, rfl⟩
        have hips : ((if connKey c == canonKeyOf ip1 p1 ip2 p2 then
              updSources c (registerSource st.sources ip1 src).1 else c)).ip1 = c.ip1 ∧
            ((if connKey c == canonKeyOf ip1 p1 ip2 p2 then
              updSources c (registerSource st.sources ip1 src).1 else c)).ip2 = c.ip2 := by
          split
          · exact updSources_ips c _
          · exact ⟨rfl, rfl⟩
        rw [hips.1, hips.2]
        rcases hknown c hc with h | h
        · exact Or.inl (hmono _ h)
        · exact Or.inr (hmono _ h)

/-- Processing one line preserves the run invariant. -/
theorem netInv_step {st st' : Netcmp} {src line : List Char}
    (h : stepLine st src line = some st') (hinv : NetInv st) : NetInv st' := by
  rw [stepLine] at h
  cases hP : parseRowData line with
  | blank =>
    rw [hP] at h
    cases h
    exact hinv
  | perr =>
    rw [hP] at h
    cases h
  | row ip1 p1 ip2 p2 stt =>
    rw [hP] at h
    cases h
    exact netInv_observe st src ip1 p1 ip2 p2 stt hinv

/-- A whole run preserves the run invariant. -/
theorem netInv_run : ∀ (L : List (List Char × List Char)) (st0 st : Netcmp),
    NetInv st0 → runLines st0 L = some st → NetInv st := by
  intro L
  induction L with
  | nil =>
    intro st0 st h0 hrun
    cases hrun
    exact h0
  | cons pr rest ih =>
    intro st0 st h0 hrun
    rw [runLines] at hrun
    cases hstep : stepLine st0 pr.1 pr.2 with
    | none => rw [hstep] at hrun; cases hrun
    | some st1 =>
      rw [hstep] at hrun
      exact ih st1 st (netInv_step hstep h0) hrun

/-- The empty run state satisfies the invariant. -/
theorem netInv_init : NetInv nc_init := by
  refine ⟨List.Pairwise.nil, ?_, ?_, ?_⟩ <;> intro c hc <;> exact absurd hc (List.not_mem_nil c)

/-! ### Effect of one observation on lookups and counters -/

/-- The freshly inserted record bears the canonical key. -/
theorem newConn_key (k : List Char × Nat × List Char × Nat) (stt : List Char) (s : Source) :
    connKey (updSources
      { ip1 := k.1, port1 := k.2.1, ip2 := k.2.2.1, port2 := k.2.2.2,
        state := stt, nsources := 0, sources := [] } s) = k := by
  rw [updSources_key]
  rfl

/-- Connections tree after an observation of an unseen canonical key. -/
theorem observe_conns_none (st : Netcmp) (src ip1 : List Char) (p1 : Nat) (ip2 : List Char)
    (p2 : Nat) (stt : List Char) (hor : ¬ (ip1 = loopbackIp ∨ ip2 = loopbackIp))
    (hfind : findConn st.conns (canonKeyOf ip1 p1 ip2 p2) = none) :
    (nc_observe st src ip1 p1 ip2 p2 stt).conns =
      st.conns ++ [updSources
        { ip1 := (canonKeyOf ip1 p1 ip2 p2).1, port1 := (canonKeyOf ip1 p1 ip2 p2).2.1,
          ip2 := (canonKeyOf ip1 p1 ip2 p2).2.2.1, port2 := (canonKeyOf ip1 p1 ip2 p2).2.2.2,
          state := stt.take 15, nsources := 0, sources := [] }
        (registerSource st.sources ip1 src).1] := by
  rw [nc_observe, if_neg hor]
  dsimp only
  rw [hfind]

/-- Connections tree after an observation of an already-present key. -/
theorem observe_conns_some (st : Netcmp) (src ip1 : List Char) (p1 : Nat) (ip2 : List Char)
    (p2 : Nat) (stt : List Char) {c0 : Conn} (hor : ¬ (ip1 = loopbackIp ∨ ip2 = loopbackIp))
    (hfind : findConn st.conns (canonKeyOf ip1 p1 ip2 p2) = some c0) :
    (nc_observe st src ip1 p1 ip2 p2 stt).conns =
      st.conns.map (fun c => if connKey c == canonKeyOf ip1 p1 ip2 p2 then
        updSources c (registerSource st.sources ip1 src).1 else c) := by
  rw [nc_observe, if_neg hor]
  dsimp only
  rw [hfind]

/-- Connections tree after a loopback observation. -/
theorem observe_conns_loop (st : Netcmp) (src ip1 : List Char) (p1 : Nat) (ip2 : List Char)
    (p2 : Nat) (stt : List Char) (hor : ip1 = loopbackIp ∨ ip2 = loopbackIp) :
    (nc_observe st src ip1 p1 ip2 p2 stt).conns = st.conns := by
  rw [nc_observe, if_pos hor]

/-- An observation leaves every other key's lookup unchanged. -/
theorem findConn_observe_other (st : Netcmp) (src ip1 : List Char) (p1 : Nat)
    (ip2 : List Char) (p2 : Nat) (stt : List Char) {k : List Char × Nat × List Char × Nat}
    (hor : ¬ (ip1 = loopbackIp ∨ ip2 = loopbackIp)) (hk : k ≠ canonKeyOf ip1 p1 ip2 p2) :
    findConn (nc_observe st src ip1 p1 ip2 p2 stt).conns k = findConn st.conns k := by
  cases hfind : findConn st.conns (canonKeyOf ip1 p1 ip2 p2) with
  | none =>
    rw [observe_conns_none st src ip1 p1 ip2 p2 stt hor hfind]
    cases hself : findConn st.conns k with
    | some c =>
      unfold findConn at hself ⊢
      exact findq_append_some _ hself
    | none =>
      unfold findConn at hself ⊢
      rw [findq_append_none _ hself]
      cases hbeq : (connKey (updSources
        { ip1 := (canonKeyOf ip1 p1 ip2 p2).1, port1 := (canonKeyOf ip1 p1 ip2 p2).2.1,
          ip2 := (canonKeyOf ip1 p1 ip2 p2).2.2.1, port2 := (canonKeyOf ip1 p1 ip2 p2).2.2.2,
          state := stt.take 15, nsources := 0, sources := [] }
        (registerSource st.sources ip1 src).1) == k) with
      | true =>
        rw [newConn_key] at hbeq
        exact absurd (beq_iff_eq.mp hbeq).symm hk
      | false => simp [List.find?, hbeq]
  | some c0 =>
    rw [observe_conns_some st src ip1 p1 ip2 p2 stt hor hfind, findConn_map_upd]
    cases hself : findConn st.conns k with
    | none => rfl
    | some c =>
      have hck : connKey c = k := findConn_some_key hself
      have hfalse : (connKey c == canonKeyOf ip1 p1 ip2 p2) = false := by
        rw [beq_eq_false_iff_ne, hck]
        exact hk
      simp [hfalse]
      intro hEq
      exact absurd hEq (beq_eq_false_iff_ne.mp hfalse)

/-- An observation's own key maps to the updated (or fresh) record. -/
theorem findConn_observe_key (st : Netcmp) (src ip1 : List Char) (p1 : Nat)
    (ip2 : List Char) (p2 : Nat) (stt : List Char)
    (hor : ¬ (ip1 = loopbackIp ∨ ip2 = loopbackIp)) :
    (match findConn st.conns (canonKeyOf ip1 p1 ip2 p2) with
      | none => findConn (nc_observe st src ip1 p1 ip2 p2 stt).conns
          (canonKeyOf ip1 p1 ip2 p2) = some (updSources
            { ip1 := (canonKeyOf ip1 p1 ip2 p2).1, port1 := (canonKeyOf ip1 p1 ip2 p2).2.1,
              ip2 := (canonKeyOf ip1 p1 ip2 p2).2.2.1, port2 := (canonKeyOf ip1 p1 ip2 p2).2.2.2,
              state := stt.take 15, nsources := 0, sources := [] }
            (registerSource st.sources ip1 src).1)
      | some c0 => findConn (nc_observe st src ip1 p1 ip2 p2 stt).conns
          (canonKeyOf ip1 p1 ip2 p2) = some (updSources c0 (registerSource st.sources ip1 src).1)) := by
  cases hfind : findConn st.conns (canonKeyOf ip1 p1 ip2 p2) with
  | none =>
    rw [observe_conns_none st src ip1 p1 ip2 p2 stt hor hfind]
    unfold findConn at hfind ⊢
    rw [findq_append_none _ hfind, findq_singleton_self connKey _ _ (newConn_key _ _ _)]
  | some c0 =>
    rw [observe_conns_some st src ip1 p1 ip2 p2 stt hor hfind, findConn_map_upd, hfind]
    have : (connKey c0 == canonKeyOf ip1 p1 ip2 p2) = true :=
      beq_iff_eq.mpr (findConn_some_key hfind)
    simp [this]
    intro hne
    exact absurd (beq_iff_eq.mp this) hne

/-- One processed line raises each key's recorded counter by at most its
contribution to the observation count. -/
theorem step_boundIn {st st' : Netcmp} {src line : List Char}
    (h : stepLine st src line = some st') (k : List Char × Nat × List Char × Nat) :
    boundIn st' k ≤ boundIn st k + (if lineKey line = some k then 1 else 0) := by
  rw [stepLine] at h
  cases hP : parseRowData line with
  | blank =>
    rw [hP] at h
    cases h
    simp
  | perr =>
    rw [hP] at h
    cases h
  | row ip1 p1 ip2 p2 stt =>
    rw [hP] at h
    cases h
    have hlk : lineKey line = if ip1 = loopbackIp ∨ ip2 = loopbackIp then none
        else some (canonKeyOf ip1 p1 ip2 p2) := by
      rw [lineKey, hP]
    by_cases hor : ip1 = loopbackIp ∨ ip2 = loopbackIp
    · rw [hlk, if_pos hor]
      rw [boundIn, boundIn, observe_conns_loop st src ip1 p1 ip2 p2 stt hor]
      simp
    · rw [hlk, if_neg hor]
      by_cases hk : k = canonKeyOf ip1 p1 ip2 p2
      · subst hk
        rw [if_pos rfl]
        have hkey := findConn_observe_key st src ip1 p1 ip2 p2 stt hor
        rw [boundIn, boundIn]
        cases hfind : findConn st.conns (canonKeyOf ip1 p1 ip2 p2) with
        | none =>
          rw [hfind] at hkey
          rw [hkey]
          norm_num [updSources]
        | some c0 =>
          rw [hfind] at hkey
          rw [hkey]
          exact updSources_ns_le c0 _
      · rw [if_neg (fun hEq => hk (Option.some.inj hEq).symm)]
        rw [boundIn, boundIn,
          findConn_observe_other st src ip1 p1 ip2 p2 stt hor hk]
        exact Nat.le_add_right _ 0

/-- Over a run, each key's recorded counter is bounded by its starting
value plus the number of its observations. -/
theorem run_boundIn : ∀ (L : List (List Char × List Char)) (st0 st : Netcmp),
    runLines st0 L = some st →
    ∀ k, boundIn st k ≤ boundIn st0 k + obsCount L k := by
  intro L
  induction L with
  | nil =>
    intro st0 st hrun k
    cases hrun
    simp [obsCount]
  | cons pr rest ih =>
    intro st0 st hrun k
    rw [runLines] at hrun
    cases hstep : stepLine st0 pr.1 pr.2 with
    | none =>
      rw [hstep] at hrun
      cases hrun
    | some st1 =>
      rw [hstep] at hrun
      have h1 := step_boundIn hstep k
      have h2 := ih st1 st hrun k
      have hobs : obsCount (pr :: rest) k =
          obsCount rest k + (if lineKey pr.2 = some k then 1 else 0) := by
        rw [obsCount, obsCount, List.countP_cons]
        by_cases hc : lineKey pr.2 = some k
        · simp [hc]
        · simp [hc]
      omega

/-! ### C8: counter bounded by observations, saturating, two retained refs -/

/-- C8: at every point of ingestion a connection's counter never exceeds the
number of non-loopback observations of its canonical tuple so far, never
exceeds 255, saturates at 255 instead of wrapping, and at most two source
references are retained. -/
theorem count_bounded_and_saturating :
    (∀ (L : List (List Char × List Char)) (st : Netcmp), runLines nc_init L = some st →
      ∀ c ∈ st.conns, c.nsources ≤ obsCount L (connKey c) ∧ c.nsources ≤ 255 ∧
        c.sources.length ≤ 2) ∧
    (∀ (c : Conn) (s : Source), c.nsources = 255 → (updSources c s).nsources = 255) := by
  constructor
  · intro L st hrun c hc
    obtain ⟨huniq, hlen, hbounds, -⟩ := netInv_run L nc_init st netInv_init hrun
    have hfind : findConn st.conns (connKey c) = some c :=
      findq_of_pairwise_mem connKey huniq hc
    have hbound := run_boundIn L nc_init st hrun (connKey c)
    have hb0 : boundIn nc_init (connKey c) = 0 := rfl
    have hbst : boundIn st (connKey c) = c.nsources := by
      unfold boundIn
      rw [hfind]
    refine ⟨by omega, (hbounds c hc).2, ?_⟩
    rw [hlen c hc]
    omega
  · intro c s h
    exact updSources_ns_of_sat c s h

/-- Witness for C8 at a concrete one-line run and a saturated counter. -/
theorem count_bounded_and_saturating_witness :
    (cConnC8.nsources ≤ obsCount cLinesC8 (connKey cConnC8) ∧ cConnC8.nsources ≤ 255 ∧
      cConnC8.sources.length ≤ 2) ∧ (updSources cConnSat noSource).nsources = 255 :=
  ⟨count_bounded_and_saturating.1 cLinesC8 cStC8 (by decide) cConnC8 (by decide),
   count_bounded_and_saturating.2 cConnSat noSource (by decide)⟩

/-! ### Line accounting machinery for C1 -/

/-- A non-blank line never scans as blank. -/
theorem parseRowData_ne_blank {line : List Char} (h : line ≠ ['\n']) :
    parseRowData line ≠ RowResult.blank := by
  intro hcontra
  unfold parseRowData at hcontra
  rw [if_neg h] at hcontra
  split at hcontra
  · simp at hcontra
  · dsimp only at hcontra
    rcases h0 : (strtokAll line)[0]? with - | t1
    · rw [h0] at hcontra
      simp at hcontra
    · rcases h1 : (strtokAll line)[1]? with - | t2
      · rw [h0, h1] at hcontra
        simp at hcontra
      · rcases h6 : (strtokAll line)[6]? with - | t7
        · rw [h0, h1, h6] at hcontra
          simp at hcontra
        · rw [h0, h1, h6] at hcontra
          repeat' split at hcontra
          all_goals simp at hcontra

/-- Sum of counters over a cons cell. -/
theorem sumNs_cons (a : Conn) (l : List Conn) : sumNs (a :: l) = a.nsources + sumNs l := by
  simp [sumNs]

/-- Sum of counters over an appended record. -/
theorem sumNs_append (l : List Conn) (c : Conn) : sumNs (l ++ [c]) = sumNs l + c.nsources := by
  simp [sumNs]

/-- Each member's counter is at most the total. -/
theorem mem_le_sumNs {l : List Conn} {c : Conn} (h : c ∈ l) : c.nsources ≤ sumNs l :=
  List.single_le_sum (fun x _ => Nat.zero_le x) _ (List.mem_map_of_mem _ h)

/-- Under distinct keys, an in-place update of a found, unsaturated record
raises the counter total by exactly one. -/
theorem sumNs_map_upd {l : List Conn} {k : List Char × Nat × List Char × Nat}
    (ncs : Source) (huniq : l.Pairwise (fun a b => connKey a ≠ connKey b))
    {c0 : Conn} (hfind : findConn l k = some c0) (hlt : c0.nsources < 255) :
    sumNs (l.map (fun c => if connKey c == k then updSources c ncs else c)) = sumNs l + 1 := by
  induction l with
  | nil => exact absurd hfind (by simp [findConn])
  | cons a t ih =>
    rcases List.pairwise_cons.mp huniq with ⟨ha, huniq'⟩
    unfold findConn at hfind
    cases hbeq : (connKey a == k) with
    | true =>
      simp only [List.find?_cons, hbeq, Option.some.injEq] at hfind
      subst hfind
      rw [List.map_cons, sumNs_cons, sumNs_cons]
      have htail : t.map (fun c => if connKey c == k then updSources c ncs else c) = t := by
        refine map_id_of_eq ?_
        intro b hb
        have hbk : connKey b ≠ k := by
          rw [← beq_iff_eq.mp hbeq]
          exact (ha b hb).symm
        rw [if_neg (by rwa [beq_iff_eq])]
      rw [htail, if_pos hbeq, updSources_ns_of_lt _ _ hlt]
      omega
    | false =>
      simp only [List.find?_cons, hbeq] at hfind
      rw [List.map_cons, sumNs_cons, sumNs_cons, if_neg (by simp [hbeq]),
        ih huniq' hfind]
      omega

/-- One processed line adds its non-blank indicator to the sum of loopback
skips and recorded observations, and never decreases the skip counter. -/
theorem step_sums {st st' : Netcmp} {src line : List Char}
    (h : stepLine st src line = some st')
    (huniq : st.conns.Pairwise (fun a b => connKey a ≠ connKey b))
    (hsat : sumNs st.conns < 255) :
    st'.nlocalhost + sumNs st'.conns =
      st.nlocalhost + sumNs st.conns + (if line = ['\n'] then 0 else 1) ∧
    st.nlocalhost ≤ st'.nlocalhost := by
  rw [stepLine] at h
  cases hP : parseRowData line with
  | blank =>
    rw [hP] at h
    cases h
    have hl : line = ['\n'] := by
      by_contra hl
      exact parseRowData_ne_blank hl hP
    rw [if_pos hl]
    exact ⟨by omega, le_refl _⟩
  | perr =>
    rw [hP] at h
    cases h
  | row ip1 p1 ip2 p2 stt =>
    rw [hP] at h
    cases h
    have hl : line ≠ ['\n'] := by
      intro hl
      rw [hl] at hP
      simp [parseRowData] at hP
    rw [if_neg hl]
    by_cases hor : ip1 = loopbackIp ∨ ip2 = loopbackIp
    · rw [nc_observe, if_pos hor]
      exact ⟨by dsimp only; omega, by dsimp only; omega⟩
    · have hnl : (nc_observe st src ip1 p1 ip2 p2 stt).nlocalhost = st.nlocalhost := by
        rw [nc_observe, if_neg hor]
      refine ⟨?_, by rw [hnl]⟩
      rw [hnl]
      cases hfind : findConn st.conns (canonKeyOf ip1 p1 ip2 p2) with
      | none =>
        rw [observe_conns_none st src ip1 p1 ip2 p2 stt hor hfind, sumNs_append]
        norm_num [updSources]
        omega
      | some c0 =>
        have hc0lt : c0.nsources < 255 :=
          lt_of_le_of_lt (mem_le_sumNs (findConn_some_mem hfind)) hsat
        rw [observe_conns_some st src ip1 p1 ip2 p2 stt hor hfind,
          sumNs_map_upd _ huniq hfind hc0lt]
        omega

/-- Run-level line accounting: while the observation total stays below the
saturation threshold, loopback skips plus recorded observations equal the
number of non-blank lines processed. -/
theorem run_sums : ∀ (L : List (List Char × List Char)) (st0 st : Netcmp),
    NetInv st0 → runLines st0 L = some st →
    sumNs st0.conns + nonBlankCount L < 255 →
    st.nlocalhost + sumNs st.conns = st0.nlocalhost + sumNs st0.conns + nonBlankCount L := by
  intro L
  induction L with
  | nil =>
    intro st0 st hinv hrun hbound
    cases hrun
    simp [nonBlankCount]
  | cons pr rest ih =>
    intro st0 st hinv hrun hbound
    rw [runLines] at hrun
    cases hstep : stepLine st0 pr.1 pr.2 with
    | none =>
      rw [hstep] at hrun
      cases hrun
    | some st1 =>
      rw [hstep] at hrun
      by_cases hb : pr.2 = ['\n']
      · have hnb : nonBlankCount (pr :: rest) = nonBlankCount rest := by
          rw [nonBlankCount, nonBlankCount, List.countP_cons]
          simp [hb]
        have hss := step_sums hstep hinv.1 (by omega)
        rw [if_pos hb] at hss
        have hIH := ih st1 st (netInv_step hstep hinv) hrun (by omega)
        omega
      · have hnb : nonBlankCount (pr :: rest) = nonBlankCount rest + 1 := by
          rw [nonBlankCount, nonBlankCount, List.countP_cons]
          simp [hb]
        have hss := step_sums hstep hinv.1 (by omega)
        rw [if_neg hb] at hss
        have hIH := ih st1 st (netInv_step hstep hinv) hrun (by omega)
        omega

/-- The five outcomes partition any outcome list. -/
theorem outcomeCount_partition (l : List Outcome) :
    l.count .pruned + l.count .overflow + l.count .symmetric +
      l.count .external + l.count .asymmetric = l.length := by
  induction l with
  | nil => rfl
  | cons o t ih => cases o <;> simp [List.count_cons] <;> omega

/-! ### C1: classification partition and line accounting -/

/-- C1 counterexample: two data lines reporting the same connection from its
two sides produce one symmetric connection, so the five classification
counts plus the loopback-skip counter total 1, not the 2 data lines
processed. -/
theorem five_counts_plus_loopback_not_line_total :
    (runLines nc_init cLinesC1).map
      (fun st => countOutcome st Outcome.pruned + countOutcome st Outcome.overflow +
        countOutcome st Outcome.symmetric + countOutcome st Outcome.external +
        countOutcome st Outcome.asymmetric + st.nlocalhost)
      ≠ some cLinesC1.length := by
  decide

/-- C1 as amended: every connection is classified into exactly one of the
five outcomes — their counts sum to the number of registry connections —
and, as long as the number of non-blank data lines stays below the 255
saturation threshold, the loopback-skip counter plus the total of recorded
observation counters equals the number of non-blank data lines processed. -/
theorem classification_partition_and_accounting :
    ∀ (L : List (List Char × List Char)) (st : Netcmp), runLines nc_init L = some st →
      (countOutcome st Outcome.pruned + countOutcome st Outcome.overflow +
        countOutcome st Outcome.symmetric + countOutcome st Outcome.external +
        countOutcome st Outcome.asymmetric = st.conns.length) ∧
      (nonBlankCount L < 255 → st.nlocalhost + sumNs st.conns = nonBlankCount L) := by
  intro L st hrun
  constructor
  · unfold countOutcome
    rw [outcomeCount_partition, List.length_map]
  · intro hlt
    have h := run_sums L nc_init st netInv_init hrun (by simpa [nc_init, sumNs] using hlt)
    simpa [nc_init, sumNs] using h

/-- Witness for C1's amended accounting on a concrete symmetric run. -/
theorem classification_partition_and_accounting_witness :
    (countOutcome cStC1W Outcome.pruned + countOutcome cStC1W Outcome.overflow +
      countOutcome cStC1W Outcome.symmetric + countOutcome cStC1W Outcome.external +
      countOutcome cStC1W Outcome.asymmetric = cStC1W.conns.length) ∧
    cStC1W.nlocalhost + sumNs cStC1W.conns = nonBlankCount cLinesC1W :=
  ⟨(classification_partition_and_accounting cLinesC1W cStC1W (by decide)).1,
   (classification_partition_and_accounting cLinesC1W cStC1W (by decide)).2 (by decide)⟩

/-! ### C2: endpoint-known invariant, but external is reachable -/

/-- C2 counterexample: a single observation towards a host with no supplied
data leaves one endpoint unregistered, and the classifier assigns external:
the external counter is not always zero. -/
theorem external_counter_nonzero :
    (runLines nc_init cLinesC2).map (fun st => countOutcome st Outcome.external)
      ≠ some 0 := by
  decide

/-- The classifier's external test, characterized: with a positive counter,
external is assigned exactly to non-TIME_WAIT single-observation connections
having at least one endpoint absent from the source registry (the code sets
`external` when the first lookup fails, and otherwise from the second
lookup). -/
theorem classify_external_iff (srcs : List Source) (c : Conn) (h1 : 1 ≤ c.nsources) :
    classify srcs c = Outcome.external ↔
      (c.state ≠ "TIME_WAIT".toList ∧ c.nsources = 1 ∧
        ((findSource srcs c.ip1).isNone ∨ (findSource srcs c.ip2).isNone)) := by
  unfold classify
  split_ifs with hTW hOv hSym hExt
  · simp [hTW]
  · constructor
    · intro h
      exact absurd h (by decide)
    · rintro ⟨-, h2, -⟩
      omega
  · constructor
    · intro h
      exact absurd h (by decide)
    · rintro ⟨-, h2, -⟩
      omega
  · constructor
    · intro _
      exact ⟨hTW, by omega, hExt⟩
    · intro _
      rfl
  · constructor
    · intro h
      exact h.elim
    · rintro ⟨-, -, h3⟩
      exact hExt h3

/-- C2 as amended: after any run, every registry connection has at least one
endpoint (the observing side's local IP) present in the Source Registry;
however the classifier assigns external exactly when at least one endpoint
is absent — not when both are — so the external counter can be nonzero. -/
theorem endpoint_known_and_external_condition :
    ∀ (L : List (List Char × List Char)) (st : Netcmp), runLines nc_init L = some st →
      ∀ c ∈ st.conns,
        ((findSource st.sources c.ip1).isSome ∨ (findSource st.sources c.ip2).isSome) ∧
        (classify st.sources c = Outcome.external ↔
          (c.state ≠ "TIME_WAIT".toList ∧ c.nsources = 1 ∧
            ((findSource st.sources c.ip1).isNone ∨ (findSource st.sources c.ip2).isNone))) := by
  intro L st hrun c hc
  obtain ⟨-, -, hbounds, hknown⟩ := netInv_run L nc_init st netInv_init hrun
  exact ⟨hknown c hc, classify_external_iff st.sources c (hbounds c hc).1⟩

/-- Witness for C2's amended statement on a concrete one-sided run. -/
theorem endpoint_known_and_external_condition_witness :
    ((findSource cStC2W.sources cConnC2W.ip1).isSome ∨
      (findSource cStC2W.sources cConnC2W.ip2).isSome) ∧
    (classify cStC2W.sources cConnC2W = Outcome.external ↔
      (cConnC2W.state ≠ "TIME_WAIT".toList ∧ cConnC2W.nsources = 1 ∧
        ((findSource cStC2W.sources cConnC2W.ip1).isNone ∨
          (findSource cStC2W.sources cConnC2W.ip2).isNone))) :=
  endpoint_known_and_external_condition cLinesC2W cStC2W (by decide) cConnC2W (by decide)

/-! ### C3: asymmetric requires both sides known -/

/-- C3 counterexample: a connection meeting the claim's hypotheses — state
ESTABLISHED (not TIME_WAIT), exactly one contributing observation, and at
least one endpoint IP present in the Source Registry — is classified
external, not asymmetric, because its other endpoint is unregistered. -/
theorem one_sided_known_classified_external :
    (runLines nc_init cLinesC3).map (fun st => st.conns.map (classify st.sources))
      = some [Outcome.external] ∧
    (runLines nc_init cLinesC3).map (fun st => st.conns.map (fun c =>
      (c.state, c.nsources,
        (findSource st.sources c.ip1).isSome || (findSource st.sources c.ip2).isSome)))
      = some [("ESTABLISHED".toList, 1, true)] := by
  constructor
  · decide
  · decide

/-- C3 as amended: a registry connection whose state is not TIME_WAIT, whose
counter is exactly 1, and BOTH of whose canonical endpoint IPs are found in
the Source Registry is classified asymmetric, and the report emits its
detail line naming both endpoints and the sole retained source's label. -/
theorem asym_requires_both_sides_known :
    ∀ (st : Netcmp) (c : Conn), c ∈ st.conns →
      c.state ≠ "TIME_WAIT".toList → c.nsources = 1 →
      (findSource st.sources c.ip1).isSome → (findSource st.sources c.ip2).isSome →
      classify st.sources c = Outcome.asymmetric ∧ detailFor c ∈ reportDetails st := by
  intro st c hc hTW hns h1 h2
  have hcls : classify st.sources c = Outcome.asymmetric := by
    unfold classify
    rw [if_neg hTW, if_neg (by omega), if_neg (by omega), if_neg ?_]
    rintro (h | h)
    · rw [Option.isNone_iff_eq_none] at h
      rw [h] at h1
      exact absurd h1 (by decide)
    · rw [Option.isNone_iff_eq_none] at h
      rw [h] at h2
      exact absurd h2 (by decide)
  refine ⟨hcls, ?_⟩
  unfold reportDetails
  refine List.mem_filterMap.mpr ⟨c, hc, ?_⟩
  rw [if_pos hcls]

/-- Witness for C3's amended statement at a concrete registry. -/
theorem asym_requires_both_sides_known_witness :
    classify cStAsym.sources cConnAsym = Outcome.asymmetric ∧
      detailFor cConnAsym ∈ reportDetails cStAsym :=
  asym_requires_both_sides_known cStAsym cConnAsym (by decide) (by decide) (by decide)
    (by decide) (by decide)
